import Mathlib

/-!
Verification of the PRO/II language-server core pipeline
(lexer `server/src/lexer.ts`, parser `server/src/parser.ts`,
symbol table `server/src/symbolTable.ts`) as a shallow embedding.

Strings are embedded as `String`/`List Char`; JavaScript's ASCII-range
case mapping is modelled by `upperChar`/`jsToUpper`; `parseFloat` is
modelled by `jsParseFloat` over exact rationals (the inputs exercised
here are small integers, where IEEE doubles and rationals agree).
Loops of the TypeScript source that provably make progress are embedded
with an internal structural fuel of `tokens.length + 1` (one iteration
always consumes at least one token, so the fuel can never run out);
the parser's statement loops, which the source does NOT guard with any
iteration ceiling, take an explicit fuel argument and return `none`
when it is exhausted, so genuine non-termination of the source is
expressed as `∀ fuel, … = none`.
-/

/-! ### Character helpers (lexer.ts `isDigit`, `isAlpha`, `isAlphaNumeric`) -/

/-- `Lexer.isDigit`: `char >= '0' && char <= '9'`. -/
def isDigitC (c : Char) : Bool := 48 ≤ c.toNat && c.toNat ≤ 57

/-- `Lexer.isAlpha`: `(char >= 'a' && char <= 'z') || (char >= 'A' && char <= 'Z')`. -/
def isAlphaC (c : Char) : Bool :=
  (97 ≤ c.toNat && c.toNat ≤ 122) || (65 ≤ c.toNat && c.toNat ≤ 90)

/-- `Lexer.isAlphaNumeric`: `isAlpha(char) || isDigit(char)`. -/
def isAlphaNumericC (c : Char) : Bool := isAlphaC c || isDigitC c

/-- ASCII uppercase mapping of one character (JavaScript `toUpperCase`
restricted to the ASCII range the DSL uses). -/
def upperChar (c : Char) : Char :=
  if 97 ≤ c.toNat ∧ c.toNat ≤ 122 then Char.ofNat (c.toNat - 32) else c

/-- ASCII lowercase mapping of one character (JavaScript `toLowerCase`
restricted to the ASCII range the DSL uses). -/
def lowerChar (c : Char) : Char :=
  if 65 ≤ c.toNat ∧ c.toNat ≤ 90 then Char.ofNat (c.toNat + 32) else c

/-- Model of JavaScript `String.prototype.toUpperCase`. -/
def jsToUpper (s : String) : String := String.mk (s.data.map upperChar)

/-- Model of JavaScript `String.prototype.toLowerCase`. -/
def jsToLower (s : String) : String := String.mk (s.data.map lowerChar)

/-- Decimal digits to a natural number. -/
def digitsToNat (ds : List Char) : Nat :=
  ds.foldl (fun n c => n * 10 + (c.toNat - 48)) 0

/-- Model of JavaScript `parseFloat`: longest valid prefix of the form
`[+-]? digits [. digits]? [(E|e) [+-]? digits]?`; `none` models `NaN`.
The exact rational value is used in place of the IEEE double; on the
integer literals exercised by this development the two agree, and the
integer case is kept free of rational arithmetic so that it evaluates
in the kernel. -/
def jsParseFloat (cs : List Char) : Option Rat :=
  let (neg, r1) :=
    match cs with
    | '-' :: r => (true, r)
    | '+' :: r => (false, r)
    | _ => (false, cs)
  let ip := r1.takeWhile isDigitC
  let r2 := r1.dropWhile isDigitC
  let (fp, r3) :=
    match r2 with
    | '.' :: r => (r.takeWhile isDigitC, r.dropWhile isDigitC)
    | _ => ([], r2)
  if ip.isEmpty && fp.isEmpty then none
  else
    let ex : Int :=
      match r3 with
      | e :: r =>
        if e = 'E' ∨ e = 'e' then
          let (esign, r4) :=
            match r with
            | '-' :: rr => ((-1 : Int), rr)
            | '+' :: rr => ((1 : Int), rr)
            | _ => ((1 : Int), r)
          let eds := r4.takeWhile isDigitC
          if eds.isEmpty then 0 else esign * (digitsToNat eds : Int)
        else 0
      | [] => 0
    let base : Rat :=
      if fp.isEmpty then ((digitsToNat ip : Nat) : Rat)
      else (digitsToNat ip : Rat) + (digitsToNat fp : Rat) / ((10 : Rat) ^ fp.length)
    let scaled : Rat := if ex = 0 then base else base * (10 : Rat) ^ ex
    some (if neg then -scaled else scaled)

/-- `parseFloat` as used by `Parser.parseNumber` and
`SymbolTable.extractStreamProperties`; the `NaN` case (unreachable for
lexer-produced `NUMBER` tokens, which always contain a digit) is
collapsed to `0`. -/
def numValue (v : String) : Rat := (jsParseFloat v.data).getD 0

/-- Split on `/\r?\n/` as in `SymbolTable.getLineText`
(`documentText.split(/\r?\n/)`). -/
def splitLinesAux : List Char → List Char → List String
  | [], acc => [String.mk acc.reverse]
  | '\r' :: '\n' :: rest, acc => String.mk acc.reverse :: splitLinesAux rest []
  | '\n' :: rest, acc => String.mk acc.reverse :: splitLinesAux rest []
  | c :: rest, acc => splitLinesAux rest (c :: acc)

/-- The lines of a document, 0-indexed. -/
def splitLines (s : String) : List String := splitLinesAux s.data []

/-! ### Token kinds and the keyword table

`TokenType` and `KEYWORDS` follow `server/src/types.ts`.

Modelled from the spec: the `types.ts` snapshot in the repository is an
older revision whose keyword table routes `COMPONENT`/`STREAM`/
`THERMODYNAMIC` to combined section kinds and lacks the kinds `DATA`,
`PRINT`, `PROP`, `TYPE`, `INPUT`, `RESULT`, `NSTAGE` and `COND` that
`parser.ts` and the lexer integration tests require.  The table below
reconstructs the missing revision from spec §4.1 (case-insensitive
keyword table grouped into section markers, unit-operation names,
parameter names and thermodynamic-method names) together with the token
kinds demanded by `parser.ts` and asserted by the in-repo lexer tests;
entries present in the older snapshot are kept verbatim. -/

inductive TokenType where
  | NUMBER | IDENTIFIER | STRING
  | COMPONENT | DATA | STREAM | THERMODYNAMIC | UNIT_OPERATIONS | PRINT
  | FLASH | COLUMN | HCURVE | HX | COMPRESSOR | PUMP | MIXER | SPLITTER
  | VALVE | REACTOR | CALCULATOR | STCALC
  | UID | NAME | FEED | PROD | PRODUCT | TEMP | TEMPERATURE | PRES | PRESSURE
  | RATE | COMP | PROP | LIBID | BANK | METHOD | SET | SPEC | VARY | DEFINE
  | TYPE | INPUT | RESULT | NSTAGE | COND
  | SRK | PR | NRTL
  | EQUALS | COMMA | SLASH | PLUS | MINUS | TIMES | DIVIDE | LPAREN | RPAREN
  | COMMENT | CONTINUATION | NEWLINE
  | EOF | UNKNOWN
deriving DecidableEq, Repr

/-- `Token` from `types.ts`: `{type, value, line, column, length}`. -/
structure Token where
  type : TokenType
  value : String
  line : Nat
  column : Nat
  length : Nat
deriving DecidableEq, Repr

/-- The `KEYWORDS` map (see the module comment above on the
reconstructed entries). -/
def KEYWORDS : List (String × TokenType) := [
  ("COMPONENT", .COMPONENT), ("STREAM", .STREAM),
  ("THERMODYNAMIC", .THERMODYNAMIC), ("UNIT", .UNIT_OPERATIONS),
  ("DATA", .DATA), ("PRINT", .PRINT),
  ("FLASH", .FLASH), ("COLUMN", .COLUMN), ("HCURVE", .HCURVE), ("HX", .HX),
  ("COMPRESSOR", .COMPRESSOR), ("PUMP", .PUMP), ("MIXER", .MIXER),
  ("SPLITTER", .SPLITTER), ("VALVE", .VALVE), ("REACTOR", .REACTOR),
  ("CALCULATOR", .CALCULATOR), ("STCALC", .STCALC),
  ("UID", .UID), ("NAME", .NAME), ("FEED", .FEED), ("PROD", .PROD),
  ("PRODUCT", .PRODUCT), ("TEMP", .TEMP), ("TEMPERATURE", .TEMPERATURE),
  ("PRES", .PRES), ("PRESSURE", .PRESSURE), ("RATE", .RATE), ("COMP", .COMP),
  ("PROP", .PROP), ("LIBID", .LIBID), ("BANK", .BANK), ("METHOD", .METHOD),
  ("SET", .SET), ("SPEC", .SPEC), ("VARY", .VARY), ("DEFINE", .DEFINE),
  ("TYPE", .TYPE), ("INPUT", .INPUT), ("RESULT", .RESULT),
  ("NSTAGE", .NSTAGE), ("COND", .COND),
  ("SRK", .SRK), ("PR", .PR), ("NRTL", .NRTL)]

/-- `KEYWORDS.get(upperValue)` of `Lexer.scanIdentifier`. -/
def keywordsGet (s : String) : Option TokenType :=
  (KEYWORDS.find? (fun e => e.1 == s)).map (·.2)

namespace Lexer

/-- `Lexer.scanComment`: the comment character plus everything up to
(excluding) the next newline; returns the token value and the rest. -/
def scanComment (c : Char) (cs : List Char) : List Char × List Char :=
  (c :: cs.takeWhile (fun x => x ≠ '\n'), cs.dropWhile (fun x => x ≠ '\n'))

/-- Optional leading minus of `Lexer.scanNumber`. -/
def scanSign (input : List Char) : List Char × List Char :=
  match input with
  | c :: rest => if c = '-' then (['-'], rest) else ([], input)
  | [] => ([], input)

/-- Integer-part loop of `Lexer.scanNumber`. -/
def scanDigits (input : List Char) : List Char × List Char :=
  (input.takeWhile isDigitC, input.dropWhile isDigitC)

/-- Decimal part of `Lexer.scanNumber`: a `.` is consumed only when the
peeked character after it is a digit. -/
def scanFrac (input : List Char) : List Char × List Char :=
  match input with
  | c :: rest =>
    if c = '.' ∧ isDigitC (rest.headD '\x00') then
      ('.' :: rest.takeWhile isDigitC, rest.dropWhile isDigitC)
    else ([], input)
  | [] => ([], input)

/-- Scientific-notation part of `Lexer.scanNumber`: `E`/`e`, an optional
sign, then digits (possibly none, as in the source). -/
def scanExp (input : List Char) : List Char × List Char :=
  match input with
  | e :: rest =>
    if e = 'E' ∨ e = 'e' then
      match rest with
      | s :: r2 =>
        if s = '+' ∨ s = '-' then
          (e :: s :: r2.takeWhile isDigitC, r2.dropWhile isDigitC)
        else (e :: rest.takeWhile isDigitC, rest.dropWhile isDigitC)
      | [] => ([e], [])
    else ([], input)
  | [] => ([], input)

/-- `Lexer.scanNumber`: sign, integer part, optional fraction, optional
exponent; returns the token value characters and the rest of the input. -/
def scanNumber (input : List Char) : List Char × List Char :=
  let (s0, r0) := scanSign input
  let (d1, r1) := scanDigits r0
  let (f2, r2) := scanFrac r1
  let (e3, r3) := scanExp r2
  (s0 ++ d1 ++ f2 ++ e3, r3)

/-- `Lexer.scanIdentifier`: alphanumeric/underscore run starting at `c`;
the upper-cased value is looked up in `KEYWORDS`. -/
def scanIdentifier (c : Char) (cs : List Char) : List Char × List Char :=
  (c :: cs.takeWhile (fun x => isAlphaNumericC x || x = '_'),
   cs.dropWhile (fun x => isAlphaNumericC x || x = '_'))

/-- `Lexer.scanString`: opening quote, content until the matching quote
or end of line; a closing quote is consumed when present. -/
def scanString (q : Char) (cs : List Char) : List Char × List Char :=
  let content := cs.takeWhile (fun x => x ≠ q ∧ x ≠ '\n')
  let rest := cs.dropWhile (fun x => x ≠ q ∧ x ≠ '\n')
  match rest with
  | r :: rs => if r = q then (q :: content ++ [q], rs) else (q :: content, rest)
  | [] => (q :: content, [])

/-- One step of `Lexer.scanToken` on input `c :: cs` at position
(`line`, `col`).  Returns the emitted token (`none` for discarded
whitespace), the remaining input, and the updated line/column. -/
def scanToken (c : Char) (cs : List Char) (line col : Nat) :
    Option Token × List Char × Nat × Nat :=
  if c = ' ' ∨ c = '\t' ∨ c = '\r' then
    (none, cs, line, col + 1)
  else if c = '\n' then
    (some { type := .NEWLINE, value := "\n", line := line, column := col, length := 1 },
     cs, line + 1, 1)
  else if c = '$' ∨ c = '%' then
    let (v, rest) := scanComment c cs
    (some { type := .COMMENT, value := String.mk v, line := line, column := col,
            length := v.length }, rest, line, col + v.length)
  else if c = '&' then
    (some { type := .CONTINUATION, value := "&", line := line, column := col, length := 1 },
     cs, line, col + 1)
  else if c = '=' then
    (some { type := .EQUALS, value := "=", line := line, column := col, length := 1 },
     cs, line, col + 1)
  else if c = ',' then
    (some { type := .COMMA, value := ",", line := line, column := col, length := 1 },
     cs, line, col + 1)
  else if c = '/' then
    (some { type := .SLASH, value := "/", line := line, column := col, length := 1 },
     cs, line, col + 1)
  else if c = '+' then
    (some { type := .PLUS, value := "+", line := line, column := col, length := 1 },
     cs, line, col + 1)
  else if c = '-' then
    if isDigitC (cs.headD '\x00') then
      let (v, rest) := scanNumber (c :: cs)
      (some { type := .NUMBER, value := String.mk v, line := line, column := col,
              length := v.length }, rest, line, col + v.length)
    else
      (some { type := .MINUS, value := "-", line := line, column := col, length := 1 },
       cs, line, col + 1)
  else if c = '*' then
    (some { type := .TIMES, value := "*", line := line, column := col, length := 1 },
     cs, line, col + 1)
  else if c = '(' then
    (some { type := .LPAREN, value := "(", line := line, column := col, length := 1 },
     cs, line, col + 1)
  else if c = ')' then
    (some { type := .RPAREN, value := ")", line := line, column := col, length := 1 },
     cs, line, col + 1)
  else if isDigitC c then
    let (v, rest) := scanNumber (c :: cs)
    (some { type := .NUMBER, value := String.mk v, line := line, column := col,
            length := v.length }, rest, line, col + v.length)
  else if isAlphaC c then
    let (v, rest) := scanIdentifier c cs
    let upperValue := jsToUpper (String.mk v)
    let tokenType := (keywordsGet upperValue).getD .IDENTIFIER
    (some { type := tokenType, value := String.mk v, line := line, column := col,
            length := v.length }, rest, line, col + v.length)
  else if c = '"' ∨ c = '\'' then
    let (v, rest) := scanString c cs
    (some { type := .STRING, value := String.mk v, line := line, column := col,
            length := v.length }, rest, line, col + v.length)
  else
    (some { type := .UNKNOWN, value := String.mk [c], line := line, column := col,
            length := 1 }, cs, line, col + 1)

/-- The main `while` of `Lexer.tokenize`, with a structural fuel
(`scanToken` always consumes at least one character, so a fuel of
`input.length + 1` never runs out).  The final `Nat` counts the
whitespace characters discarded without emitting a token. -/
def tokenizeAux : Nat → List Char → Nat → Nat → List Token × Nat × Nat × Nat
  | 0, _, line, col => ([], line, col, 0)
  | _ + 1, [], line, col => ([], line, col, 0)
  | fuel + 1, c :: cs, line, col =>
    let (tok?, rest, line2, col2) := scanToken c cs line col
    let (toks, fl, fc, ws) := tokenizeAux fuel rest line2 col2
    (tok?.toList ++ toks, fl, fc, ws + (if tok?.isNone then 1 else 0))

/-- `Lexer.tokenize`: scan the whole input, then append the `EOF` token. -/
def tokenize (input : List Char) : List Token :=
  let (toks, fl, fc, _) := tokenizeAux (input.length + 1) input 1 1
  toks ++ [{ type := .EOF, value := "", line := fl, column := fc, length := 0 }]

/-- The number of whitespace characters `tokenize` discards without
emitting any token (instrumentation of the first branch of `scanToken`). -/
def wsDiscarded (input : List Char) : Nat :=
  (tokenizeAux (input.length + 1) input 1 1).2.2.2

/-- A character that matches none of `scanToken`'s rules, i.e. reaches
the final `UNKNOWN` fallback. -/
def isUnrecognizedChar (c : Char) : Bool :=
  !(c = ' ' || c = '\t' || c = '\r' || c = '\n' || c = '$' || c = '%' ||
    c = '&' || c = '=' || c = ',' || c = '/' || c = '+' || c = '-' ||
    c = '*' || c = '(' || c = ')' || isDigitC c || isAlphaC c ||
    c = '"' || c = '\'')

/-- Sum of the `length` fields of a token list. -/
def sumLengths (toks : List Token) : Nat := (toks.map (·.length)).sum

end Lexer

/-! ### AST node types (`server/src/ast.ts`) -/

/-- `NumberNode`: parsed numeric value plus original text. -/
structure NumberNode where
  startLine : Nat
  endLine : Nat
  value : Rat
  raw : String

/-- `IdentifierNode`. -/
structure IdentifierNode where
  startLine : Nat
  endLine : Nat
  name : String

/-- `StringNode` (dequoted value). -/
structure StringNode where
  startLine : Nat
  endLine : Nat
  value : String

/-- `ValueNode = NumberNode | IdentifierNode | StringNode | ListNode`;
the `list` constructor carries `startLine`, `endLine`, the ordered
values and the separator character (`,` or `/`). -/
inductive ValueNode where
  | num (n : NumberNode)
  | ident (i : IdentifierNode)
  | str (q : StringNode)
  | list (startLine endLine : Nat) (values : List ValueNode) (separator : Char)

/-- `ParameterNode`: `name=value`. -/
structure ParameterNode where
  startLine : Nat
  endLine : Nat
  name : IdentifierNode
  value : ValueNode

/-- `StreamReferenceNode`: stream name plus optional phase tag. -/
structure StreamReferenceNode where
  startLine : Nat
  endLine : Nat
  streamName : IdentifierNode
  streamType : Option String

/-- `ComponentNode`: e.g. `C1/2` (identifier plus optional library id). -/
structure ComponentNode where
  startLine : Nat
  endLine : Nat
  identifier : String
  libid : Option NumberNode

/-- The statement variants (`UnitOperationNode`, `ComponentDataNode`,
`StreamDataNode`, `ThermodynamicDataNode`, `PrintStatementNode`). -/
inductive StatementNode where
  | unitOperation (startLine endLine : Nat) (statementType : String)
      (uid : Option IdentifierNode) (parameters : List ParameterNode)
      (feedStreams productStreams : List StreamReferenceNode)
  | componentData (startLine endLine : Nat) (statementType : String)
      (components : List ComponentNode)
  | streamData (startLine endLine : Nat) (statementType : String)
      (streamName : IdentifierNode) (dataType : String)
      (parameters : List ParameterNode)
  | thermodynamicData (startLine endLine : Nat) (statementType : String)
      (method : Option String) (parameters : List ParameterNode)
  | printStatement (startLine endLine : Nat) (parameters : List ParameterNode)

/-- `SectionType`. -/
inductive SectionType where
  | COMPONENT_DATA | STREAM_DATA | THERMODYNAMIC_DATA | UNIT_OPERATIONS
  | PRINT | OTHER
deriving DecidableEq, Repr

/-- `SectionNode`. -/
structure SectionNode where
  startLine : Nat
  endLine : Nat
  sectionType : SectionType
  statements : List StatementNode

/-- `ProgramNode` (root). -/
structure ProgramNode where
  startLine : Nat
  endLine : Nat
  sections : List SectionNode

namespace Parser

/-- Parser cursor state: `this.position` and `this.currentLine`. -/
structure PSt where
  pos : Nat
  curLine : Nat
deriving DecidableEq, Repr

/-- Placeholder token used for the (unreachable) out-of-bounds access;
`tokenize` always ends its output with an `EOF` token, and `advance`
never moves past it. -/
def eofTok : Token := { type := .EOF, value := "", line := 0, column := 0, length := 0 }

/-- `Parser.current`. -/
def cur (t : List Token) (s : PSt) : Token := t.getD s.pos eofTok

/-- `Parser.peek`. -/
def peekT (t : List Token) (s : PSt) : Option Token := t.get? (s.pos + 1)

/-- `Parser.isAtEnd`: past the end or looking at `EOF`. -/
def isAtEnd (t : List Token) (s : PSt) : Bool :=
  decide (t.length ≤ s.pos) || (cur t s).type == .EOF

/-- `Parser.getCurrentLine`. -/
def getCurrentLine (t : List Token) (s : PSt) : Nat :=
  if isAtEnd t s then s.curLine else (cur t s).line

/-- `Parser.advance`: move one token forward (unless at end) and record
the consumed token's line in `currentLine`. -/
def advance (t : List Token) (s : PSt) : PSt :=
  if isAtEnd t s then s else { pos := s.pos + 1, curLine := (cur t s).line }

/-- `Parser.check`. -/
def check (t : List Token) (s : PSt) (ty : TokenType) : Bool :=
  !isAtEnd t s && (cur t s).type == ty

/-- `Parser.checkNext`. -/
def checkNext (t : List Token) (s : PSt) (ty : TokenType) : Bool :=
  match peekT t s with
  | some tok => tok.type == ty
  | none => false

/-- `Parser.consume`: consume the token if it has the given type;
returns whether it did. -/
def consumeTok (t : List Token) (s : PSt) (ty : TokenType) : Bool × PSt :=
  if check t s ty then (true, advance t s) else (false, s)

/-- Loop body of `Parser.consumeNewlines` (structural fuel; every
iteration consumes one token, so `t.length + 1` can never run out). -/
def consumeNewlinesGo (t : List Token) : Nat → PSt → PSt
  | 0, s => s
  | fuel + 1, s =>
    if check t s .NEWLINE then consumeNewlinesGo t fuel (advance t s) else s

/-- `Parser.consumeNewlines`. -/
def consumeNewlines (t : List Token) (s : PSt) : PSt :=
  consumeNewlinesGo t (t.length + 1) s

/-- Loop body of `Parser.skipWhitespaceAndComments`. -/
def skipWsGo (t : List Token) : Nat → PSt → PSt
  | 0, s => s
  | fuel + 1, s =>
    if check t s .NEWLINE || check t s .COMMENT then
      skipWsGo t fuel (advance t s)
    else s

/-- `Parser.skipWhitespaceAndComments`. -/
def skipWhitespaceAndComments (t : List Token) (s : PSt) : PSt :=
  skipWsGo t (t.length + 1) s

/-- Loop body of `Parser.advanceLine`: advance until end or newline. -/
def advanceLineGo (t : List Token) : Nat → PSt → PSt
  | 0, s => s
  | fuel + 1, s =>
    if !isAtEnd t s && !check t s .NEWLINE then
      advanceLineGo t fuel (advance t s)
    else s

/-- `Parser.advanceLine`: skip to the end of the line, then consume the
newlines. -/
def advanceLine (t : List Token) (s : PSt) : PSt :=
  consumeNewlines t (advanceLineGo t (t.length + 1) s)

/-- `Parser.isUnitOperationType`. -/
def isUnitOperationType (ty : TokenType) : Bool :=
  ty == .FLASH || ty == .COLUMN || ty == .HCURVE || ty == .HX ||
  ty == .COMPRESSOR || ty == .PUMP || ty == .MIXER || ty == .SPLITTER ||
  ty == .VALVE || ty == .REACTOR || ty == .CALCULATOR || ty == .STCALC

/-- `Parser.isParameterKeyword`. -/
def isParameterKeyword (ty : TokenType) : Bool :=
  ty == .TEMP || ty == .PRES || ty == .RATE || ty == .TYPE ||
  ty == .INPUT || ty == .RESULT

/-- `Parser.isNextSection`. -/
def isNextSection (t : List Token) (s : PSt) : Bool :=
  (check t s .COMPONENT && checkNext t s .DATA) ||
  (check t s .STREAM && checkNext t s .DATA) ||
  (check t s .THERMODYNAMIC && checkNext t s .DATA) ||
  check t s .UNIT_OPERATIONS ||
  check t s .PRINT

/-- `Parser.parseNumber`. -/
def parseNumber (t : List Token) (s : PSt) : NumberNode × PSt :=
  let tok := cur t s
  ({ startLine := tok.line, endLine := tok.line,
     value := numValue tok.value, raw := tok.value }, advance t s)

/-- `Parser.parseIdentifier`. -/
def parseIdentifier (t : List Token) (s : PSt) : IdentifierNode × PSt :=
  let tok := cur t s
  ({ startLine := tok.line, endLine := tok.line, name := tok.value }, advance t s)

/-- The quote-stripping of `Parser.parseString` (`value.slice(1, -1)`
when the value starts and ends with the same quote character). -/
def dequote (v : String) : String :=
  if (v.startsWith "\"" && v.endsWith "\"") || (v.startsWith "'" && v.endsWith "'") then
    String.mk (v.data.drop 1).dropLast
  else v

/-- `Parser.parseString`. -/
def parseString (t : List Token) (s : PSt) : StringNode × PSt :=
  let tok := cur t s
  ({ startLine := tok.line, endLine := tok.line, value := dequote tok.value }, advance t s)

/-- `Parser.isListStart`: current token is a number or identifier and
the next token is a comma or slash. -/
def isListStart (t : List Token) (s : PSt) : Bool :=
  if !check t s .NUMBER && !check t s .IDENTIFIER then false
  else
    match peekT t s with
    | some tok => tok.type == .COMMA || tok.type == .SLASH
    | none => false

/-- The `while (check COMMA || check SLASH)` loop of `Parser.parseList`
(structural fuel: each iteration consumes the separator token). -/
def listItemsGo (t : List Token) : Nat → PSt → List ValueNode → List ValueNode × PSt
  | 0, s, acc => (acc, s)
  | fuel + 1, s, acc =>
    if check t s .COMMA || check t s .SLASH then
      let s1 := advance t s
      if check t s1 .NUMBER then
        let (n, s2) := parseNumber t s1
        listItemsGo t fuel s2 (acc ++ [ValueNode.num n])
      else if check t s1 .IDENTIFIER then
        let (i, s2) := parseIdentifier t s1
        listItemsGo t fuel s2 (acc ++ [ValueNode.ident i])
      else (acc, s1)
    else (acc, s)

/-- `Parser.parseList`: first value, separator detection, then the
remaining values. -/
def parseList (t : List Token) (s : PSt) : ValueNode × PSt :=
  let startLine := getCurrentLine t s
  let (vals0, s1) :=
    if check t s .NUMBER then
      let (n, sx) := parseNumber t s
      ([ValueNode.num n], sx)
    else if check t s .IDENTIFIER then
      let (i, sx) := parseIdentifier t s
      ([ValueNode.ident i], sx)
    else ([], s)
  let separator : Char := if check t s1 .SLASH then '/' else ','
  let (vals, s2) := listItemsGo t (t.length + 1) s1 vals0
  (ValueNode.list startLine (getCurrentLine t s2) vals separator, s2)

/-- `Parser.parseValue`: list when `isListStart`, otherwise number,
string, or identifier. -/
def parseValue (t : List Token) (s : PSt) : ValueNode × PSt :=
  if isListStart t s then parseList t s
  else if check t s .NUMBER then
    let (n, s1) := parseNumber t s
    (ValueNode.num n, s1)
  else if check t s .STRING then
    let (q, s1) := parseString t s
    (ValueNode.str q, s1)
  else
    let (i, s1) := parseIdentifier t s
    (ValueNode.ident i, s1)

/-- `Parser.parseParameter`: `NAME=VALUE`, accepting a free identifier
or a reserved parameter keyword on the left. -/
def parseParameter (t : List Token) (s : PSt) : Option ParameterNode × PSt :=
  let startLine := getCurrentLine t s
  if !check t s .IDENTIFIER && !isParameterKeyword (cur t s).type then (none, s)
  else
    let (nameN, s1) := parseIdentifier t s
    let (ok, s2) := consumeTok t s1 .EQUALS
    if ok then
      let (v, s3) := parseValue t s2
      (some { startLine := startLine, endLine := getCurrentLine t s3,
              name := nameN, value := v }, s3)
    else (none, s2)

/-- `Parser.parseStreamReference`: identifier, optionally followed by a
comma and a phase tag identifier (upper-cased). -/
def parseStreamReference (t : List Token) (s : PSt) :
    Option StreamReferenceNode × PSt :=
  let startLine := getCurrentLine t s
  if !check t s .IDENTIFIER then (none, s)
  else
    let (nameN, s1) := parseIdentifier t s
    let (ok, s2) := consumeTok t s1 .COMMA
    if ok then
      if check t s2 .IDENTIFIER then
        let ty := jsToUpper (cur t s2).value
        let s3 := advance t s2
        (some { startLine := startLine, endLine := getCurrentLine t s3,
                streamName := nameN, streamType := some ty }, s3)
      else
        (some { startLine := startLine, endLine := getCurrentLine t s2,
                streamName := nameN, streamType := none }, s2)
    else
      (some { startLine := startLine, endLine := getCurrentLine t s2,
              streamName := nameN, streamType := none }, s2)

/-- `Parser.parseComponent`: `libid/name` when a number comes first,
`name` optionally followed by `/libid` when an identifier comes first. -/
def parseComponent (t : List Token) (s : PSt) : Option ComponentNode × PSt :=
  let startLine := getCurrentLine t s
  if check t s .NUMBER then
    let (libid, s1) := parseNumber t s
    let (_, s2) := consumeTok t s1 .SLASH
    let identifier := (cur t s2).value
    let s3 := advance t s2
    (some { startLine := startLine, endLine := getCurrentLine t s3,
            identifier := identifier, libid := some libid }, s3)
  else if check t s .IDENTIFIER then
    let identifier := (cur t s).value
    let s1 := advance t s
    let (ok, s2) := consumeTok t s1 .SLASH
    if ok then
      if check t s2 .NUMBER then
        let (lb, s3) := parseNumber t s2
        (some { startLine := startLine, endLine := getCurrentLine t s3,
                identifier := identifier, libid := some lb }, s3)
      else
        (some { startLine := startLine, endLine := getCurrentLine t s2,
                identifier := identifier, libid := none }, s2)
    else
      (some { startLine := startLine, endLine := getCurrentLine t s2,
              identifier := identifier, libid := none }, s2)
  else (none, s)

/-- The component loop of `Parser.parseComponentStatement`
(continuation handling, component, comma-or-break). -/
def componentItemsGo (t : List Token) :
    Nat → PSt → List ComponentNode → List ComponentNode × PSt
  | 0, s, acc => (acc, s)
  | fuel + 1, s, acc =>
    if !isAtEnd t s && !check t s .NEWLINE then
      if check t s .CONTINUATION then
        componentItemsGo t fuel (consumeNewlines t (advance t s)) acc
      else
        let (c?, s1) := parseComponent t s
        let acc2 := acc ++ c?.toList
        let (ok, s2) := consumeTok t s1 .COMMA
        if ok then componentItemsGo t fuel s2 acc2 else (acc2, s2)
    else (acc, s)

/-- `Parser.parseComponentStatement`: `LIBID`/`NAME`/`BANK` plus the
component list; any other leading token skips the line and yields no
statement. -/
def parseComponentStatement (t : List Token) (s : PSt) :
    Option StatementNode × PSt :=
  let startLine := getCurrentLine t s
  let stype : Option String :=
    if check t s .LIBID then some "LIBID"
    else if check t s .NAME then some "NAME"
    else if check t s .BANK then some "BANK"
    else none
  match stype with
  | none => (none, advanceLine t s)
  | some st =>
    let s1 := advance t s
    let (comps, s2) := componentItemsGo t (t.length + 1) s1 []
    let s3 := consumeNewlines t s2
    (some (.componentData startLine (getCurrentLine t s3) st comps), s3)

/-- The parameter loop shared by `Parser.parseStreamStatement` and
`Parser.parseThermodynamicStatement` (continuation handling, parameter,
comma-or-break). -/
def paramItemsGo (t : List Token) :
    Nat → PSt → List ParameterNode → List ParameterNode × PSt
  | 0, s, acc => (acc, s)
  | fuel + 1, s, acc =>
    if !isAtEnd t s && !check t s .NEWLINE then
      if check t s .CONTINUATION then
        paramItemsGo t fuel (consumeNewlines t (advance t s)) acc
      else
        let (p?, s1) := parseParameter t s
        let acc2 := acc ++ p?.toList
        let (ok, s2) := consumeTok t s1 .COMMA
        if ok then paramItemsGo t fuel s2 acc2 else (acc2, s2)
    else (acc, s)

/-- `Parser.parseStreamStatement`: `PROP`/`COMP`, optional `DATA`/`RATE`
tag, `=`, stream name, comma, then parameters. -/
def parseStreamStatement (t : List Token) (s : PSt) :
    Option StatementNode × PSt :=
  let startLine := getCurrentLine t s
  let stype : Option String :=
    if check t s .PROP then some "PROP"
    else if check t s .COMP then some "COMP"
    else none
  match stype with
  | none => (none, advanceLine t s)
  | some st =>
    let s1 := advance t s
    let (dataType, s2) :=
      if check t s1 .DATA then ("DATA", advance t s1)
      else if check t s1 .RATE then ("RATE", advance t s1)
      else ("", s1)
    let (_, s3) := consumeTok t s2 .EQUALS
    let (nameN, s4) := parseIdentifier t s3
    let (_, s5) := consumeTok t s4 .COMMA
    let (params, s6) := paramItemsGo t (t.length + 1) s5 []
    let s7 := consumeNewlines t s6
    (some (.streamData startLine (getCurrentLine t s7) st nameN dataType params), s7)

/-- `Parser.parseThermodynamicStatement`: `METHOD`/`SET`, optional
method name (`SRK`/`PR`/`NRTL`, upper-cased), then parameters. -/
def parseThermodynamicStatement (t : List Token) (s : PSt) :
    Option StatementNode × PSt :=
  let startLine := getCurrentLine t s
  let stype : Option String :=
    if check t s .METHOD then some "METHOD"
    else if check t s .SET then some "SET"
    else none
  match stype with
  | none => (none, advanceLine t s)
  | some st =>
    let s1 := advance t s
    let (method, s2) :=
      if check t s1 .SRK || check t s1 .PR || check t s1 .NRTL then
        (some (jsToUpper (cur t s1).value), advance t s1)
      else (none, s1)
    let (params, s3) := paramItemsGo t (t.length + 1) s2 []
    let s4 := consumeNewlines t s3
    (some (.thermodynamicData startLine (getCurrentLine t s4) st method params), s4)

/-- The parameter loop of `Parser.parsePrintStatement` (no continuation
branch in the source). -/
def printParamItemsGo (t : List Token) :
    Nat → PSt → List ParameterNode → List ParameterNode × PSt
  | 0, s, acc => (acc, s)
  | fuel + 1, s, acc =>
    if !isAtEnd t s && !check t s .NEWLINE then
      let (p?, s1) := parseParameter t s
      let acc2 := acc ++ p?.toList
      let (ok, s2) := consumeTok t s1 .COMMA
      if ok then printParamItemsGo t fuel s2 acc2 else (acc2, s2)
    else (acc, s)

/-- `Parser.parsePrintStatement`. -/
def parsePrintStatement (t : List Token) (s : PSt) :
    Option StatementNode × PSt :=
  let startLine := getCurrentLine t s
  if !check t s .PRINT then (none, s)
  else
    let s1 := advance t s
    let (params, s2) := printParamItemsGo t (t.length + 1) s1 []
    let s3 := consumeNewlines t s2
    (some (.printStatement startLine (getCurrentLine t s3) params), s3)

/-- The `do … while (consume COMMA)` product loop of
`Parser.parseUnitOperation` (each continuing iteration consumes the
comma). -/
def prodStreamsGo (t : List Token) :
    Nat → PSt → List StreamReferenceNode → List StreamReferenceNode × PSt
  | 0, s, acc => (acc, s)
  | fuel + 1, s, acc =>
    let (r?, s1) := parseStreamReference t s
    let acc2 := acc ++ r?.toList
    let (ok, s2) := consumeTok t s1 .COMMA
    if ok then prodStreamsGo t fuel s2 acc2 else (acc2, s2)

/-- Accumulators of `Parser.parseUnitOperation`. -/
structure UnitAccum where
  uid : Option IdentifierNode
  parameters : List ParameterNode
  feedStreams : List StreamReferenceNode
  productStreams : List StreamReferenceNode

/-- The statement-body loop of `Parser.parseUnitOperation`.  The source
has NO fallback advance here: when `parseParameter` consumes nothing
and no comma follows, the iteration leaves the cursor unchanged, so the
loop can run forever; the explicit fuel argument returns `none` in that
case (there is no iteration ceiling in the source to re-enter). -/
def unitOpLoop (t : List Token) :
    Nat → PSt → UnitAccum → Option (UnitAccum × PSt)
  | 0, _, _ => none
  | fuel + 1, s, acc =>
    if !isAtEnd t s && !check t s .NEWLINE then
      if check t s .CONTINUATION then
        unitOpLoop t fuel (consumeNewlines t (advance t s)) acc
      else
        let (acc2, s1) :=
          if check t s .UID then
            let sa := advance t s
            let (ok, sb) := consumeTok t sa .EQUALS
            if ok then
              let (idn, sc) := parseIdentifier t sb
              ({ acc with uid := some idn }, sc)
            else (acc, sb)
          else if check t s .FEED then
            let sa := advance t s
            let (r?, sb) := parseStreamReference t sa
            ({ acc with feedStreams := acc.feedStreams ++ r?.toList }, sb)
          else if check t s .PROD || check t s .PRODUCT then
            let sa := advance t s
            let (rs, sb) := prodStreamsGo t (t.length + 1) sa acc.productStreams
            ({ acc with productStreams := rs }, sb)
          else
            let (p?, sa) := parseParameter t s
            ({ acc with parameters := acc.parameters ++ p?.toList }, sa)
        let (_, s2) := consumeTok t s1 .COMMA
        unitOpLoop t fuel s2 acc2
    else some (acc, s)

/-- `Parser.parseUnitOperation`: `none` result models divergence of the
body loop; `some (none, s)` models the source's `return null` (current
token is not a unit-operation keyword; nothing is consumed). -/
def parseUnitOperation (t : List Token) (fuel : Nat) (s : PSt) :
    Option (Option StatementNode × PSt) :=
  let startLine := getCurrentLine t s
  let unitType := cur t s
  if isUnitOperationType unitType.type then
    let s1 := advance t s
    match unitOpLoop t fuel s1 ⟨none, [], [], []⟩ with
    | none => none
    | some (acc, s2) =>
      let s3 := consumeNewlines t s2
      some (some (.unitOperation startLine (getCurrentLine t s3)
        (jsToUpper unitType.value) acc.uid acc.parameters
        acc.feedStreams acc.productStreams), s3)
  else some (none, s)

/-- The `COMPONENT DATA` statement loop of `Parser.parseSection`.  The
fuel models the absent iteration ceiling (for this loop every iteration
advances, so any fuel above the token count suffices). -/
def compSectionStmts (t : List Token) :
    Nat → PSt → List StatementNode → Option (List StatementNode × PSt)
  | 0, _, _ => none
  | fuel + 1, s, acc =>
    if !isAtEnd t s && !isNextSection t s then
      let (st?, s1) := parseComponentStatement t s
      let s2 := skipWhitespaceAndComments t s1
      compSectionStmts t fuel s2 (acc ++ st?.toList)
    else some (acc, s)

/-- The `STREAM DATA` statement loop of `Parser.parseSection`. -/
def streamSectionStmts (t : List Token) :
    Nat → PSt → List StatementNode → Option (List StatementNode × PSt)
  | 0, _, _ => none
  | fuel + 1, s, acc =>
    if !isAtEnd t s && !isNextSection t s then
      let (st?, s1) := parseStreamStatement t s
      let s2 := skipWhitespaceAndComments t s1
      streamSectionStmts t fuel s2 (acc ++ st?.toList)
    else some (acc, s)

/-- The `THERMODYNAMIC DATA` statement loop of `Parser.parseSection`. -/
def thermoSectionStmts (t : List Token) :
    Nat → PSt → List StatementNode → Option (List StatementNode × PSt)
  | 0, _, _ => none
  | fuel + 1, s, acc =>
    if !isAtEnd t s && !isNextSection t s then
      let (st?, s1) := parseThermodynamicStatement t s
      let s2 := skipWhitespaceAndComments t s1
      thermoSectionStmts t fuel s2 (acc ++ st?.toList)
    else some (acc, s)

/-- The `UNIT OPERATIONS` statement loop of `Parser.parseSection`.
`parseUnitOperation` can return a null statement while consuming
nothing, and `skipWhitespaceAndComments` need not advance either, so
this loop is the parser's genuine divergence point. -/
def unitSectionStmts (t : List Token) :
    Nat → PSt → List StatementNode → Option (List StatementNode × PSt)
  | 0, _, _ => none
  | fuel + 1, s, acc =>
    if !isAtEnd t s && !isNextSection t s then
      match parseUnitOperation t fuel s with
      | none => none
      | some (st?, s1) =>
        let s2 := skipWhitespaceAndComments t s1
        unitSectionStmts t fuel s2 (acc ++ st?.toList)
    else some (acc, s)

/-- `Parser.parseSection`: two-token section dispatch; unknown headers
skip the line and produce no section (`some (none, …)`). -/
def parseSection (t : List Token) (fuel : Nat) (s : PSt) :
    Option (Option SectionNode × PSt) :=
  let startLine := getCurrentLine t s
  if check t s .COMPONENT && checkNext t s .DATA then
    let s1 := consumeNewlines t (advance t (advance t s))
    match compSectionStmts t fuel s1 [] with
    | none => none
    | some (stmts, s2) =>
      some (some { startLine := startLine, endLine := getCurrentLine t s2,
                   sectionType := .COMPONENT_DATA, statements := stmts }, s2)
  else if check t s .STREAM && checkNext t s .DATA then
    let s1 := consumeNewlines t (advance t (advance t s))
    match streamSectionStmts t fuel s1 [] with
    | none => none
    | some (stmts, s2) =>
      some (some { startLine := startLine, endLine := getCurrentLine t s2,
                   sectionType := .STREAM_DATA, statements := stmts }, s2)
  else if check t s .THERMODYNAMIC && checkNext t s .DATA then
    let s1 := consumeNewlines t (advance t (advance t s))
    match thermoSectionStmts t fuel s1 [] with
    | none => none
    | some (stmts, s2) =>
      some (some { startLine := startLine, endLine := getCurrentLine t s2,
                   sectionType := .THERMODYNAMIC_DATA, statements := stmts }, s2)
  else if check t s .UNIT_OPERATIONS then
    let s1 := consumeNewlines t (advance t s)
    match unitSectionStmts t fuel s1 [] with
    | none => none
    | some (stmts, s2) =>
      some (some { startLine := startLine, endLine := getCurrentLine t s2,
                   sectionType := .UNIT_OPERATIONS, statements := stmts }, s2)
  else if check t s .PRINT then
    let (st?, s1) := parsePrintStatement t s
    let s2 := consumeNewlines t s1
    some (some { startLine := startLine, endLine := getCurrentLine t s2,
                 sectionType := .PRINT, statements := st?.toList }, s2)
  else
    some (none, advanceLine t s)

/-- The top-level `while (!isAtEnd)` loop of `Parser.parse`. -/
def parseLoop (t : List Token) :
    Nat → PSt → List SectionNode → Option (List SectionNode × PSt)
  | 0, _, _ => none
  | fuel + 1, s, acc =>
    if !isAtEnd t s then
      match parseSection t fuel s with
      | none => none
      | some (sec?, s1) =>
        parseLoop t fuel (skipWhitespaceAndComments t s1) (acc ++ sec?.toList)
    else some (acc, s)

/-- `Parser.parse`: skip initial comments/newlines, run the section
loop, and wrap the result in a `Program` node.  `none` models
non-termination of the source (fuel exhausted). -/
def parse (t : List Token) (fuel : Nat) : Option ProgramNode :=
  let s0 := skipWhitespaceAndComments t { pos := 0, curLine := 1 }
  match parseLoop t fuel s0 [] with
  | none => none
  | some (secs, s1) =>
    some { startLine := 1, endLine := s1.curLine, sections := secs }

end Parser

/-! ### Symbol table (`server/src/symbolTable.ts`) -/

namespace SymbolTable

/-- `SymbolKind`. -/
inductive SymbolKind where
  | stream | unit | component | parameter
deriving DecidableEq, Repr

/-- One entry of `Symbol.references`: `{line, context}` (the optional
`column` is never set by the source). -/
structure SymReference where
  line : Nat
  context : String
deriving DecidableEq, Repr

/-- `Symbol.metadata`.  All fields optional; a missing key of the
JavaScript object is `none`. -/
structure Metadata where
  unitType : Option String := none
  libid : Option Rat := none
  componentName : Option String := none
  temp : Option Rat := none
  pres : Option Rat := none
  rate : Option Rat := none
  rateUnit : Option String := none
  formula : Option String := none
  type : Option String := none
  molecularWeight : Option String := none
deriving DecidableEq, Repr

/-- `Symbol`: `definedAtLine` embeds `definedAt.line` (the optional
`definedAt.column` is never set by the source). -/
structure Symbol where
  name : String
  kind : SymbolKind
  definedAtLine : Nat
  references : List SymReference
  metadata : Option Metadata := none
deriving DecidableEq, Repr

/-- The `Map<string, Symbol>` of `SymbolTable`, embedded as an
insertion-ordered association list (JavaScript `Map` preserves
insertion order; the source only inserts fresh keys and mutates
existing entries in place, which `tblModify` models). -/
abbrev SymTbl := List (String × Symbol)

/-- `this.symbols.has(k)`. -/
def tblHas (m : SymTbl) (k : String) : Bool := m.any (fun e => e.1 == k)

/-- `this.symbols.get(k)`. -/
def tblGet (m : SymTbl) (k : String) : Option Symbol :=
  (m.find? (fun e => e.1 == k)).map (·.2)

/-- In-place mutation of the symbol stored under key `k`. -/
def tblModify (m : SymTbl) (k : String) (f : Symbol → Symbol) : SymTbl :=
  m.map (fun e => if e.1 == k then (e.1, f e.2) else e)

/-- `SymbolTable.getComponentDetails`, as `(type, formula,
molecularWeight)`; `none` models the `{}` fallback. -/
def getComponentDetails (name : String) : Option (String × String × String) :=
  match name with
  | "H2O" => some ("Inorganic", "H₂O", "18.02")
  | "H2" => some ("Inorganic Gas", "H₂", "2.02")
  | "N2" => some ("Inorganic Gas", "N₂", "28.01")
  | "O2" => some ("Inorganic Gas", "O₂", "32.00")
  | "CO2" => some ("Inorganic Gas", "CO₂", "44.01")
  | "CO" => some ("Inorganic Gas", "CO", "28.01")
  | "H2S" => some ("Inorganic Gas", "H₂S", "34.08")
  | "NH3" => some ("Inorganic Gas", "NH₃", "17.03")
  | "C1" => some ("Hydrocarbon", "CH₄ (Methane)", "16.04")
  | "CH4" => some ("Hydrocarbon", "CH₄ (Methane)", "16.04")
  | "C2" => some ("Hydrocarbon", "C₂H₆ (Ethane)", "30.07")
  | "C2H6" => some ("Hydrocarbon", "C₂H₆ (Ethane)", "30.07")
  | "ETHANE" => some ("Hydrocarbon", "C₂H₆ (Ethane)", "30.07")
  | "C3" => some ("Hydrocarbon", "C₃H₈ (Propane)", "44.10")
  | "C3H8" => some ("Hydrocarbon", "C₃H₈ (Propane)", "44.10")
  | "PROPANE" => some ("Hydrocarbon", "C₃H₈ (Propane)", "44.10")
  | "IC4" => some ("Hydrocarbon", "C₄H₁₀ (i-Butane)", "58.12")
  | "ISOBUTANE" => some ("Hydrocarbon", "C₄H₁₀ (i-Butane)", "58.12")
  | "NC4" => some ("Hydrocarbon", "C₄H₁₀ (n-Butane)", "58.12")
  | "N-BUTANE" => some ("Hydrocarbon", "C₄H₁₀ (n-Butane)", "58.12")
  | "IC5" => some ("Hydrocarbon", "C₅H₁₂ (i-Pentane)", "72.15")
  | "NC5" => some ("Hydrocarbon", "C₅H₁₂ (n-Pentane)", "72.15")
  | "NC6" => some ("Hydrocarbon", "C₆H₁₄ (n-Hexane)", "86.18")
  | "NC7" => some ("Hydrocarbon", "C₇H₁₆ (n-Heptane)", "100.20")
  | "NC8" => some ("Hydrocarbon", "C₈H₁₈ (n-Octane)", "114.23")
  | "NC9" => some ("Hydrocarbon", "C₉H₂₀ (n-Nonane)", "128.26")
  | "NC10" => some ("Hydrocarbon", "C₁₀H₂₂ (n-Decane)", "142.28")
  | "NC12" => some ("Hydrocarbon", "C₁₂H₂₆ (n-Dodecane)", "170.34")
  | "NC13" => some ("Hydrocarbon", "C₁₃H₂₈ (n-Tridecane)", "184.36")
  | "NC14" => some ("Hydrocarbon", "C₁₄H₃₀ (n-Tetradecane)", "198.39")
  | "NC15" => some ("Hydrocarbon", "C₁₅H₃₂ (n-Pentadecane)", "212.41")
  | "NC16" => some ("Hydrocarbon", "C₁₆H₃₄ (n-Hexadecane)", "226.44")
  | "BENZENE" => some ("Aromatic", "C₆H₆", "78.11")
  | "TOLUENE" => some ("Aromatic", "C₇H₈", "92.14")
  | "ETHYLBENZENE" => some ("Aromatic", "C₈H₁₀", "106.17")
  | "XYLENE" => some ("Aromatic", "C₈H₁₀", "106.17")
  | _ => none

/-- JavaScript `\s` on the characters a document line can contain. -/
def isWsChar (c : Char) : Bool :=
  c = ' ' || c = '\t' || c = '\n' || c = '\r' || c = '\x0b' || c = '\x0c'

/-- Strip a pattern case-insensitively from the front of the input
(the `/i` flag of the extraction regexes). -/
def stripCI : List Char → List Char → Option (List Char)
  | [], cs => some cs
  | _ :: _, [] => none
  | p :: ps, c :: cs => if lowerChar c = lowerChar p then stripCI ps cs else none

/-- The `([\d.]+)` capture: a non-empty run of digits and dots. -/
def matchNumCapture (cs : List Char) : Option (List Char) :=
  let ds := cs.takeWhile (fun c => isDigitC c || c = '.')
  if ds.isEmpty then none else some ds

/-- The `\(([^)]+)\)` group: parenthesised non-empty run without `)`. -/
def matchParenGroup (cs : List Char) : Option (List Char × List Char) :=
  match cs with
  | '(' :: r =>
    let content := r.takeWhile (fun c => c ≠ ')')
    let r2 := r.dropWhile (fun c => c ≠ ')')
    match r2 with
    | ')' :: r3 => if content.isEmpty then none else some (content, r3)
    | _ => none
  | _ => none

/-- Match `/TEMP\s*=\s*([\d.]+)/i` at the current position. -/
def matchTempAt (cs : List Char) : Option (List Char) :=
  (stripCI "TEMP".data cs).bind fun r1 =>
    match r1.dropWhile isWsChar with
    | '=' :: r2 => matchNumCapture (r2.dropWhile isWsChar)
    | _ => none

/-- Match `/PRES(?:SURE)?\s*(?:\([^)]+\))?\s*=\s*([\d.]+)/i` at the
current position (the optional groups are deterministic here: when the
greedy alternative fails, the remaining input cannot satisfy the
required `=` either). -/
def matchPresAt (cs : List Char) : Option (List Char) :=
  (stripCI "PRES".data cs).bind fun r1 =>
    let r1b := (stripCI "SURE".data r1).getD r1
    let r2 := r1b.dropWhile isWsChar
    let r2b := match matchParenGroup r2 with
      | some (_, rr) => rr
      | none => r2
    match r2b.dropWhile isWsChar with
    | '=' :: r3 => matchNumCapture (r3.dropWhile isWsChar)
    | _ => none

/-- Match `/RATE\s*(?:\(([^)]+)\))?\s*=\s*([\d.]+)/i` at the current
position, returning the optional unit capture and the value capture. -/
def matchRateAt (cs : List Char) : Option (Option (List Char) × List Char) :=
  (stripCI "RATE".data cs).bind fun r1 =>
    let r2 := r1.dropWhile isWsChar
    let (u, r2b) := match matchParenGroup r2 with
      | some (content, rr) => (some content, rr)
      | none => (none, r2)
    match r2b.dropWhile isWsChar with
    | '=' :: r3 => (matchNumCapture (r3.dropWhile isWsChar)).map (fun v => (u, v))
    | _ => none

/-- Leftmost match of `f`, as a JavaScript regex engine scans. -/
def firstSome {α : Type} (f : List Char → Option α) : List Char → Option α
  | [] => f []
  | c :: cs =>
    match f (c :: cs) with
    | some r => some r
    | none => firstSome f cs

/-- `SymbolTable.extractStreamProperties`: best-effort textual
extraction of `TEMP=`, `PRES=` and `RATE=` from the raw line. -/
def extractStreamProperties (lineText : String) : Metadata :=
  let cs := lineText.data
  let rateM := firstSome matchRateAt cs
  { temp := (firstSome matchTempAt cs).map (fun ds => numValue (String.mk ds)),
    pres := (firstSome matchPresAt cs).map (fun ds => numValue (String.mk ds)),
    rate := rateM.map (fun p => numValue (String.mk p.2)),
    rateUnit := rateM.bind (fun p => p.1.map String.mk) }

/-- The `{...symbol.metadata, ...props}` spread of `addStream`: keys
present in `props` (the extraction results) override. -/
def mergeStreamProps (old props : Metadata) : Metadata :=
  { old with
    temp := props.temp <|> old.temp,
    pres := props.pres <|> old.pres,
    rate := props.rate <|> old.rate,
    rateUnit := props.rateUnit <|> old.rateUnit }

/-- `SymbolTable.getLineText` (1-based line number; out-of-range and
the empty document give `''`). -/
def getLineText (documentText : String) (lineNumber : Nat) : String :=
  if documentText == "" then ""
  else if lineNumber == 0 then ""
  else (splitLines documentText).getD (lineNumber - 1) ""

/-- `SymbolTable.addComponent`: first registration wins, duplicates are
ignored. -/
def addComponent (tbl : SymTbl) (comp : ComponentNode) : SymTbl :=
  let name := jsToUpper comp.identifier
  if tblHas tbl name then tbl
  else
    let details := getComponentDetails name
    tbl ++ [(name,
      { name := name, kind := .component, definedAtLine := comp.startLine,
        references := [],
        metadata := some
          { libid := comp.libid.map (·.value),
            componentName := some comp.identifier,
            type := details.map (·.1),
            formula := details.map (·.2.1),
            molecularWeight := details.map (·.2.2) } })]

/-- `SymbolTable.addStream`: create on first sight, otherwise (for
stream-kind symbols only) append the reference and, on a definition
with a non-empty line text, merge the extracted properties. -/
def addStream (tbl : SymTbl) (name : String) (line : Nat) (context : String)
    (lineText : String) : SymTbl :=
  let upperName := jsToUpper name
  if !tblHas tbl upperName then
    tbl ++ [(upperName,
      { name := upperName, kind := .stream, definedAtLine := line,
        references := [{ line := line, context := context }],
        metadata := some (extractStreamProperties lineText) })]
  else
    tblModify tbl upperName fun sym =>
      if sym.kind == .stream then
        let sym2 := { sym with
          references := sym.references ++ [{ line := line, context := context }] }
        if context == "definition" && !(lineText == "") then
          { sym2 with metadata := some (mergeStreamProps (sym2.metadata.getD {})
              (extractStreamProperties lineText)) }
        else sym2
      else sym

/-- `SymbolTable.addStreamReference`: create a stream entry on first
reference (its `definedAt` is the first reference location), otherwise
append the reference (the source has no kind guard here). -/
def addStreamReference (tbl : SymTbl) (name : String) (line : Nat)
    (context : String) : SymTbl :=
  let upperName := jsToUpper name
  if !tblHas tbl upperName then
    tbl ++ [(upperName,
      { name := upperName, kind := .stream, definedAtLine := line,
        references := [{ line := line, context := context }],
        metadata := none })]
  else
    tblModify tbl upperName fun sym =>
      { sym with references := sym.references ++ [{ line := line, context := context }] }

/-- `SymbolTable.addUnit`: create on first sight; an already-present
key leaves the table entirely unchanged. -/
def addUnit (tbl : SymTbl) (name : String) (line : Nat) (unitType : String) :
    SymTbl :=
  let upperName := jsToUpper name
  if !tblHas tbl upperName then
    tbl ++ [(upperName,
      { name := upperName, kind := .unit, definedAtLine := line,
        references := [{ line := line, context := "definition" }],
        metadata := some { unitType := some unitType } })]
  else tbl

/-- `SymbolTable.processComponentData`. -/
def processComponentData (tbl : SymTbl) (sec : SectionNode) : SymTbl :=
  sec.statements.foldl (fun tb stmt =>
    match stmt with
    | .componentData _ _ _ comps => comps.foldl addComponent tb
    | _ => tb) tbl

/-- `SymbolTable.processStreamData`: every `StreamData` statement
registers its stream name with the `definition` role. -/
def processStreamData (documentText : String) (tbl : SymTbl)
    (sec : SectionNode) : SymTbl :=
  sec.statements.foldl (fun tb stmt =>
    match stmt with
    | .streamData sl _ _ nameN _ _ =>
      addStream tb nameN.name sl "definition" (getLineText documentText sl)
    | _ => tb) tbl

/-- One `UnitOperation` statement of
`SymbolTable.processUnitOperations`: unit uid first, then feed
references, then product references. -/
def processUnitStatement (tbl : SymTbl) (stmt : StatementNode) : SymTbl :=
  match stmt with
  | .unitOperation sl _ sty uid _ feeds prods =>
    let tbl1 := match uid with
      | some u => addUnit tbl u.name sl sty
      | none => tbl
    let tbl2 := feeds.foldl
      (fun tb fr => addStreamReference tb fr.streamName.name fr.startLine "feed") tbl1
    prods.foldl
      (fun tb pr => addStreamReference tb pr.streamName.name pr.startLine "product") tbl2
  | _ => tbl

/-- `SymbolTable.processUnitOperations`. -/
def processUnitOperations (tbl : SymTbl) (sec : SectionNode) : SymTbl :=
  sec.statements.foldl processUnitStatement tbl

/-- `SymbolTable.processSection`: dispatch on the section kind. -/
def processSection (documentText : String) (tbl : SymTbl)
    (sec : SectionNode) : SymTbl :=
  match sec.sectionType with
  | .COMPONENT_DATA => processComponentData tbl sec
  | .STREAM_DATA => processStreamData documentText tbl sec
  | .UNIT_OPERATIONS => processUnitOperations tbl sec
  | _ => tbl

/-- `SymbolTable.build`: clear, then process the sections in document
order (`documentText` is `''` when the optional argument is omitted). -/
def build (ast : ProgramNode) (documentText : String) : SymTbl :=
  ast.sections.foldl (processSection documentText) []

/-- `SymbolTable.getSymbol`. -/
def getSymbol (tbl : SymTbl) (name : String) : Option Symbol :=
  tblGet tbl (jsToUpper name)

/-- `SymbolTable.getSymbolsByKind`. -/
def getSymbolsByKind (tbl : SymTbl) (kind : SymbolKind) : List Symbol :=
  (tbl.map (·.2)).filter (fun s => s.kind == kind)

/-- `SymbolTable.getAllSymbols`. -/
def getAllSymbols (tbl : SymTbl) : List Symbol := tbl.map (·.2)

/-- `SymbolTable.isDefined`. -/
def isDefined (tbl : SymTbl) (name : String) : Bool :=
  tblHas tbl (jsToUpper name)

/-- `SymbolTable.getUndefinedSymbols`: stream symbols with at least one
reference and no `definition`-context reference. -/
def getUndefinedSymbols (tbl : SymTbl) : List Symbol :=
  (tbl.map (·.2)).filter fun sym =>
    match sym.kind with
    | .stream =>
      !(sym.references.any (fun r => r.context == "definition")) &&
      decide (0 < sym.references.length)
    | _ => false

/-- `SymbolTable.getStats`. -/
def getStats (tbl : SymTbl) : Nat × Nat × Nat :=
  ((getSymbolsByKind tbl .stream).length,
   (getSymbolsByKind tbl .unit).length,
   (getSymbolsByKind tbl .component).length)

/-! #### Flattening of `build` into a list of primitive table
operations, used by the invariant proofs. -/

/-- A primitive mutation of the symbol table. -/
inductive SymOp where
  | addComp (comp : ComponentNode)
  | addStr (name : String) (line : Nat) (context : String) (lineText : String)
  | addRef (name : String) (line : Nat) (context : String)
  | addUn (name : String) (line : Nat) (unitType : String)

/-- Apply one primitive operation. -/
def applyOp (tbl : SymTbl) : SymOp → SymTbl
  | .addComp c => addComponent tbl c
  | .addStr n l ctx txt => addStream tbl n l ctx txt
  | .addRef n l ctx => addStreamReference tbl n l ctx
  | .addUn n l ty => addUnit tbl n l ty

/-- Apply a list of primitive operations in order. -/
def applyOps (tbl : SymTbl) (ops : List SymOp) : SymTbl :=
  ops.foldl applyOp tbl

/-- The operations a statement contributes inside a `COMPONENT_DATA`
section. -/
def stmtOpsComp : StatementNode → List SymOp
  | .componentData _ _ _ comps => comps.map .addComp
  | _ => []

/-- The operations a statement contributes inside a `STREAM_DATA`
section. -/
def stmtOpsStream (documentText : String) : StatementNode → List SymOp
  | .streamData sl _ _ nameN _ _ =>
    [.addStr nameN.name sl "definition" (getLineText documentText sl)]
  | _ => []

/-- The operations a statement contributes inside a `UNIT_OPERATIONS`
section. -/
def stmtOpsUnit : StatementNode → List SymOp
  | .unitOperation sl _ sty uid _ feeds prods =>
    (match uid with
     | some u => [.addUn u.name sl sty]
     | none => []) ++
    feeds.map (fun fr => .addRef fr.streamName.name fr.startLine "feed") ++
    prods.map (fun pr => .addRef pr.streamName.name pr.startLine "product")
  | _ => []

/-- The operations a whole section contributes. -/
def sectionOps (documentText : String) (sec : SectionNode) : List SymOp :=
  match sec.sectionType with
  | .COMPONENT_DATA => (sec.statements.map stmtOpsComp).flatten
  | .STREAM_DATA => (sec.statements.map (stmtOpsStream documentText)).flatten
  | .UNIT_OPERATIONS => (sec.statements.map stmtOpsUnit).flatten
  | _ => []

/-- All operations of a build, in execution order. -/
def opsOf (ast : ProgramNode) (documentText : String) : List SymOp :=
  (ast.sections.map (sectionOps documentText)).flatten

end SymbolTable

/-! ### Decidable document predicates used by the claims about
`getUndefinedSymbols` (C5) -/

/-- Does the statement, inside a `UNIT_OPERATIONS` section, reference
stream `X` (case-insensitively) as a feed? -/
def stmtHasFeed (X : String) : StatementNode → Bool
  | .unitOperation _ _ _ _ _ feeds _ =>
    feeds.any (fun fr => jsToUpper fr.streamName.name == jsToUpper X)
  | _ => false

/-- Does some unit operation of the document reference `X` as a feed? -/
def hasFeedRefTo (ast : ProgramNode) (X : String) : Bool :=
  ast.sections.any fun sec =>
    sec.sectionType == .UNIT_OPERATIONS && sec.statements.any (stmtHasFeed X)

/-- Is the statement a stream-property statement for `X`? -/
def stmtIsStreamDefFor (X : String) : StatementNode → Bool
  | .streamData _ _ _ nameN _ _ => jsToUpper nameN.name == jsToUpper X
  | _ => false

/-- Does a stream-property statement for `X` exist anywhere in the
document (inside a `STREAM_DATA` section, where the resolver processes
it)? -/
def hasStreamDefFor (ast : ProgramNode) (X : String) : Bool :=
  ast.sections.any fun sec =>
    sec.sectionType == .STREAM_DATA && sec.statements.any (stmtIsStreamDefFor X)

/-- Does the statement declare a component named `X`? -/
def stmtHasComponentNamed (X : String) : StatementNode → Bool
  | .componentData _ _ _ comps =>
    comps.any (fun c => jsToUpper c.identifier == jsToUpper X)
  | _ => false

/-- Does some component declaration use `X` as its canonical name? -/
def hasComponentNamed (ast : ProgramNode) (X : String) : Bool :=
  ast.sections.any fun sec =>
    sec.sectionType == .COMPONENT_DATA && sec.statements.any (stmtHasComponentNamed X)

/-- Does the statement define a unit with uid `X`? -/
def stmtHasUnitNamed (X : String) : StatementNode → Bool
  | .unitOperation _ _ _ uid _ _ _ =>
    match uid with
    | some u => jsToUpper u.name == jsToUpper X
    | none => false
  | _ => false

/-- Does some unit operation use `X` as its uid? -/
def hasUnitNamed (ast : ProgramNode) (X : String) : Bool :=
  ast.sections.any fun sec =>
    sec.sectionType == .UNIT_OPERATIONS && sec.statements.any (stmtHasUnitNamed X)

/-! ### Invariant predicates over symbol tables -/

open SymbolTable in
/-- Every stored symbol's `name` equals its key, and the keys are
pairwise distinct (the source inserts a key only when `has` is false). -/
def TblWF (tbl : SymTbl) : Prop :=
  (∀ e ∈ tbl, e.2.name = e.1) ∧ (tbl.map (·.1)).Nodup

open SymbolTable in
/-- The entry under `X`'s canonical key, when present, is a stream
symbol named `jsToUpper X` whose (non-empty) references all carry a
non-`definition` context. -/
def KeyGood (X : String) (tbl : SymTbl) : Prop :=
  ∃ s, tblGet tbl (jsToUpper X) = some s ∧ s.name = jsToUpper X ∧
    s.kind = .stream ∧ s.references ≠ [] ∧
    ∀ r ∈ s.references, r.context ≠ "definition"

open SymbolTable in
/-- Either no entry exists under `X`'s canonical key, or the entry is
`KeyGood`. -/
def KeyClean (X : String) (tbl : SymTbl) : Prop :=
  tblGet tbl (jsToUpper X) = none ∨ KeyGood X tbl

open SymbolTable in
/-- An entry exists under `X`'s canonical key, and if it is a stream
symbol then it carries a `definition`-context reference. -/
def KeyDefended (X : String) (tbl : SymTbl) : Prop :=
  ∃ s, tblGet tbl (jsToUpper X) = some s ∧
    (s.kind = .stream → ∃ r ∈ s.references, r.context = "definition")

/-! ### Concrete inputs used by the claims -/

/-- The input whose parse never terminates (claim C1): the
`UNIT OPERATIONS` statement loop sees an identifier line, and
`parseUnitOperation` returns null without consuming anything. -/
def c1input : String := "UNIT\nX"

/-- `tokenize c1input` (established by `c1_tokenize_eq`). -/
def c1tokens : List Token :=
  [{ type := .UNIT_OPERATIONS, value := "UNIT", line := 1, column := 1, length := 4 },
   { type := .NEWLINE, value := "\n", line := 1, column := 5, length := 1 },
   { type := .IDENTIFIER, value := "X", line := 2, column := 1, length := 1 },
   { type := .EOF, value := "", line := 2, column := 2, length := 0 }]

/-- The concrete scenario input of claim C3. -/
def c3input : String := "COMPONENT DATA\nLIBID 1, C1/2, C2/3\n"

/-- The concrete scenario input of claim C4. -/
def c4input : String := "FLASH UID=F-100\nFEED FEED\nPROD VAPOR, LIQUID\n"

/-- A token list at which `parseValue` takes the list branch with a
slash separator (claim C9's witness). -/
def c9tokens : List Token :=
  [{ type := .NUMBER, value := "1", line := 1, column := 1, length := 1 },
   { type := .SLASH, value := "/", line := 1, column := 2, length := 1 },
   { type := .NUMBER, value := "2", line := 1, column := 3, length := 1 },
   { type := .EOF, value := "", line := 1, column := 4, length := 0 }]

/-- An identifier node at a line (helper for hand-written ASTs). -/
def mkId (n : String) (l : Nat) : IdentifierNode :=
  { startLine := l, endLine := l, name := n }

/-- A bare stream reference at a line (helper for hand-written ASTs). -/
def mkRef (n : String) (l : Nat) : StreamReferenceNode :=
  { startLine := l, endLine := l, streamName := mkId n l, streamType := none }

/-- A document whose only statement is a unit operation with feed `X`
(claims C10 and C5's witness): `X` is referenced but never defined. -/
def c10ast : ProgramNode :=
  { startLine := 1, endLine := 2, sections := [
    { startLine := 1, endLine := 2, sectionType := .UNIT_OPERATIONS, statements := [
      .unitOperation 2 2 "FLASH" none [] [mkRef "X" 2] [] ] } ] }

/-- Counterexample document for claim C5: `X` is declared as a
component and also referenced as a feed, with no stream-property
statement for it anywhere. -/
def c5cexAst : ProgramNode :=
  { startLine := 1, endLine := 4, sections := [
    { startLine := 1, endLine := 2, sectionType := .COMPONENT_DATA, statements := [
      .componentData 2 2 "NAME" [{ startLine := 2, endLine := 2, identifier := "X", libid := none }] ] },
    { startLine := 3, endLine := 4, sectionType := .UNIT_OPERATIONS, statements := [
      .unitOperation 4 4 "FLASH" none [] [mkRef "X" 4] [] ] } ] }

/-- Counterexample document for claim C6: the uid `U` is defined twice
(lines 1 and 3), and the stream `X` is referenced (line 2) before its
stream-property definition (line 4). -/
def c6cexAst : ProgramNode :=
  { startLine := 1, endLine := 4, sections := [
    { startLine := 1, endLine := 3, sectionType := .UNIT_OPERATIONS, statements := [
      .unitOperation 1 1 "FLASH" (some (mkId "U" 1)) [] [mkRef "X" 2] [],
      .unitOperation 3 3 "PUMP" (some (mkId "U" 3)) [] [] [] ] },
    { startLine := 4, endLine := 4, sectionType := .STREAM_DATA, statements := [
      .streamData 4 4 "PROP" (mkId "X" 4) "DATA" [] ] } ] }

open SymbolTable in
/-- An operation that cannot make the entry under `X`'s canonical key
acquire a `definition`-tagged stream reference or a colliding fresh
entry: its key differs from `X`'s, or it is a reference with a
non-`definition` context. -/
def OpSafe (X : String) : SymOp → Prop
  | .addComp c => jsToUpper c.identifier ≠ jsToUpper X
  | .addStr n _ _ _ => jsToUpper n ≠ jsToUpper X
  | .addRef _ _ ctx => ctx ≠ "definition"
  | .addUn n _ _ => jsToUpper n ≠ jsToUpper X

open SymbolTable in
/-- A concrete stream symbol (witness input for claim C6). -/
def c6wSym : Symbol :=
  { name := "X", kind := .stream, definedAtLine := 1,
    references := [{ line := 1, context := "feed" }], metadata := none }

open SymbolTable in
/-- A concrete one-entry table (witness input for claim C6). -/
def c6wTbl : SymTbl := [("X", c6wSym)]

/-! ## Theorems -/

/-! ### Character and string case-mapping lemmas -/

theorem toNat_ofNat_of_lt {n : Nat} (h : n < 0xd800) : (Char.ofNat n).toNat = n := by
  rw [Char.ofNat, dif_pos (Or.inl h)]
  rfl

theorem upperChar_upperChar (c : Char) : upperChar (upperChar c) = upperChar c := by
  unfold upperChar
  by_cases h : 97 ≤ c.toNat ∧ c.toNat ≤ 122
  · rw [if_pos h]
    have ht : (Char.ofNat (c.toNat - 32)).toNat = c.toNat - 32 :=
      toNat_ofNat_of_lt (by omega)
    rw [if_neg (by omega)]
  · rw [if_neg h, if_neg h]

theorem upperChar_lowerChar (c : Char) : upperChar (lowerChar c) = upperChar c := by
  unfold upperChar lowerChar
  by_cases h : 65 ≤ c.toNat ∧ c.toNat ≤ 90
  · rw [if_pos h]
    have ht : (Char.ofNat (c.toNat + 32)).toNat = c.toNat + 32 :=
      toNat_ofNat_of_lt (by omega)
    rw [if_pos (by omega), if_neg (by omega), ht]
    have h2 : c.toNat + 32 - 32 = c.toNat := by omega
    rw [h2, Char.ofNat_toNat]
  · rw [if_neg h]

theorem jsToUpper_jsToUpper (s : String) : jsToUpper (jsToUpper s) = jsToUpper s := by
  simp [jsToUpper, Function.comp_def, upperChar_upperChar]

theorem jsToUpper_jsToLower (s : String) : jsToUpper (jsToLower s) = jsToUpper s := by
  simp [jsToUpper, jsToLower, Function.comp_def, upperChar_lowerChar]

/-! ### C1: the parser does not terminate on all inputs -/

/-- `tokenize "UNIT\nX"` produces the four tokens of `c1tokens`. -/
theorem c1_tokenize_eq : Lexer.tokenize c1input.data = c1tokens := by decide

/-- At the state after the `UNIT` header (cursor on the identifier
`X`), the `UNIT OPERATIONS` statement loop makes no progress:
`parseUnitOperation` returns null without consuming, and
`skipWhitespaceAndComments` does not move either, so every unit of
fuel is consumed without change and the loop diverges. -/
theorem c1_unitLoop_diverges : ∀ (g : Nat) (acc : List StatementNode),
    Parser.unitSectionStmts c1tokens g { pos := 2, curLine := 1 } acc = none := by
  intro g
  induction g with
  | zero => intro acc; rfl
  | succ n ih =>
    intro acc
    have step : Parser.unitSectionStmts c1tokens (n + 1) { pos := 2, curLine := 1 } acc =
        Parser.unitSectionStmts c1tokens n { pos := 2, curLine := 1 } (acc ++ []) := rfl
    rw [step, List.append_nil]
    exact ih acc

theorem c1_section_diverges (n : Nat) :
    Parser.parseSection c1tokens n { pos := 0, curLine := 1 } = none := by
  unfold Parser.parseSection
  simp only [show (Parser.check c1tokens { pos := 0, curLine := 1 } TokenType.COMPONENT &&
      Parser.checkNext c1tokens { pos := 0, curLine := 1 } TokenType.DATA) = false from rfl,
    show (Parser.check c1tokens { pos := 0, curLine := 1 } TokenType.STREAM &&
      Parser.checkNext c1tokens { pos := 0, curLine := 1 } TokenType.DATA) = false from rfl,
    show (Parser.check c1tokens { pos := 0, curLine := 1 } TokenType.THERMODYNAMIC &&
      Parser.checkNext c1tokens { pos := 0, curLine := 1 } TokenType.DATA) = false from rfl,
    show Parser.check c1tokens { pos := 0, curLine := 1 } TokenType.UNIT_OPERATIONS = true from rfl,
    show Parser.consumeNewlines c1tokens (Parser.advance c1tokens { pos := 0, curLine := 1 }) =
      { pos := 2, curLine := 1 } from rfl,
    Bool.false_eq_true, if_false, if_true, c1_unitLoop_diverges n []]

/-- C1: the claim asserts that every statement-parsing loop advances or
is stopped by an iteration ceiling, making `parse` total.  The code has
no iteration ceiling, and on the token sequence of `"UNIT\nX"` the
`UNIT OPERATIONS` statement loop repeats forever at a fixed cursor
(`parseUnitOperation` returns null without consuming when the current
token is not a unit-operation keyword): `parse` diverges, i.e. returns
`none` for every fuel bound. -/
theorem parse_diverges_on_unit_identifier_line :
    Lexer.tokenize c1input.data = c1tokens ∧
    ∀ fuel, Parser.parse (Lexer.tokenize c1input.data) fuel = none := by
  refine ⟨c1_tokenize_eq, ?_⟩
  intro fuel
  rw [c1_tokenize_eq]
  cases fuel with
  | zero => rfl
  | succ n =>
    unfold Parser.parse Parser.parseLoop
    simp only [show Parser.skipWhitespaceAndComments c1tokens { pos := 0, curLine := 1 } =
        { pos := 0, curLine := 1 } from rfl,
      show (!Parser.isAtEnd c1tokens { pos := 0, curLine := 1 }) = true from rfl,
      if_true, c1_section_diverges n]

/-! ### C3 and C4: the concrete pipeline scenarios -/

open SymbolTable in
/-- C3: on `"COMPONENT DATA\nLIBID 1, C1/2, C2/3\n"` the pipeline does
NOT produce component symbols `C1` and `C2`.  `parseComponent` consumes
`1`, fails to consume a slash, and takes the following comma token as
the component identifier; the statement loop then stops at `C1` (no
comma follows immediately), and the rest of the line is skipped.  The
resulting table has exactly one component symbol, keyed `","`, with
library id 1; `C1` and `C2` are absent and the stats are 0 streams,
0 units, 1 component. -/
theorem c3_pipeline_eval :
    (Parser.parse (Lexer.tokenize c3input.data) 64).map
      (fun ast => (build ast c3input).map (·.1)) = some [","] ∧
    (Parser.parse (Lexer.tokenize c3input.data) 64).map
      (fun ast => (tblGet (build ast c3input) ",").map
        (fun s => (s.kind, s.metadata.bind (fun m => m.libid)))) =
      some (some (SymbolKind.component, some 1)) ∧
    (Parser.parse (Lexer.tokenize c3input.data) 64).map
      (fun ast => getSymbol (build ast c3input) "C1") = some none ∧
    (Parser.parse (Lexer.tokenize c3input.data) 64).map
      (fun ast => getSymbol (build ast c3input) "C2") = some none ∧
    (Parser.parse (Lexer.tokenize c3input.data) 64).map
      (fun ast => getStats (build ast c3input)) = some (0, 0, 1) := by
  exact ⟨by decide, by decide, by decide, by decide, by decide⟩

open SymbolTable in
/-- C4: on `"FLASH UID=F-100\nFEED FEED\nPROD VAPOR, LIQUID\n"` the
pipeline produces NO symbols at all.  The document has no section
header, and `parseSection` skips each of the three lines as an
unrecognized section (a `FLASH` statement is only parsed inside a
`UNIT OPERATIONS` section), so the program has zero sections and the
symbol table is empty: no unit `F-100`, no stream symbols. -/
theorem c4_pipeline_eval :
    (Parser.parse (Lexer.tokenize c4input.data) 64).map
      (fun ast => (ast.sections.length,
        build ast c4input,
        getSymbol (build ast c4input) "F-100",
        getUndefinedSymbols (build ast c4input))) =
    some (0, ([] : SymTbl), none, ([] : List Symbol)) := by
  decide

open SymbolTable in
/-- C10: `isDefined` is exactly key presence after case folding, for
every build and every name; and on the document `c10ast` (stream `X`
referenced as a feed, never defined) `isDefined "X"` is `true` while
`X` is simultaneously a member of `getUndefinedSymbols()`. -/
theorem isDefined_key_presence (ast : ProgramNode) (txt N : String) :
    isDefined (build ast txt) N = tblHas (build ast txt) (jsToUpper N) ∧
    (isDefined (build c10ast "") "X" = true ∧
     ∃ sym ∈ getUndefinedSymbols (build c10ast ""), sym.name = "X") := by
  exact ⟨rfl, by decide, by decide⟩

section
open Parser

/-! ### C9: list-versus-scalar value disambiguation -/

theorem check_isAtEnd_false {t : List Token} {s : PSt} {ty : TokenType}
    (h : check t s ty = true) : isAtEnd t s = false := by
  unfold check at h
  rcases Bool.and_eq_true_iff.mp h with ⟨ha, _⟩
  simpa using ha

theorem advance_of_check {t : List Token} {s : PSt} {ty : TokenType}
    (h : check t s ty = true) :
    advance t s = { pos := s.pos + 1, curLine := (cur t s).line } := by
  unfold advance
  rw [if_neg (by simp [check_isAtEnd_false h])]

theorem cur_peek {t : List Token} {s : PSt} {tok : Token} {l : Nat}
    (hp : peekT t s = some tok) :
    cur t { pos := s.pos + 1, curLine := l } = tok := by
  unfold peekT at hp
  rw [List.get?_eq_getElem?] at hp
  unfold cur
  simp [List.getD, hp]

theorem isAtEnd_peek {t : List Token} {s : PSt} {tok : Token} {l : Nat}
    (hp : peekT t s = some tok) (hne : tok.type ≠ TokenType.EOF) :
    isAtEnd t { pos := s.pos + 1, curLine := l } = false := by
  have hlen : s.pos + 1 < t.length := by
    unfold peekT at hp
    exact (List.get?_eq_some.mp hp).1
  unfold isAtEnd
  rw [cur_peek hp]
  simp [hlen, Nat.not_le.mpr hlen, hne]

/-- C9: in every value position, `parseValue` produces a `List` node
exactly when the current token is a number or identifier and the token
immediately following it is a comma or slash (`isListStart`); otherwise
it produces a scalar `Number`, `String`, or `Identifier` node.  The
produced `List` node records its separator as `'/'` exactly when the
token immediately after the first value is a slash, and `','`
otherwise. -/
theorem parseValue_list_spec (t : List Token) (s : Parser.PSt) :
    (Parser.isListStart t s = true →
      ∃ el vals, (Parser.parseValue t s).1 =
        ValueNode.list (Parser.getCurrentLine t s) el vals
          (if (Parser.peekT t s).map (·.type) = some TokenType.SLASH then '/' else ',')) ∧
    (Parser.isListStart t s = false →
      (∃ n, (Parser.parseValue t s).1 = ValueNode.num n) ∨
      (∃ q, (Parser.parseValue t s).1 = ValueNode.str q) ∨
      (∃ i, (Parser.parseValue t s).1 = ValueNode.ident i)) ∧
    (∀ sl el vals sep, (Parser.parseValue t s).1 = ValueNode.list sl el vals sep →
      Parser.isListStart t s = true) := by
  have hscalar : Parser.isListStart t s = false →
      (∃ n, (Parser.parseValue t s).1 = ValueNode.num n) ∨
      (∃ q, (Parser.parseValue t s).1 = ValueNode.str q) ∨
      (∃ i, (Parser.parseValue t s).1 = ValueNode.ident i) := by
    intro h
    unfold Parser.parseValue
    rw [if_neg (by simp [h])]
    by_cases h1 : Parser.check t s TokenType.NUMBER = true
    · rw [if_pos h1]
      exact Or.inl ⟨_, rfl⟩
    · rw [if_neg h1]
      by_cases h2 : Parser.check t s TokenType.STRING = true
      · rw [if_pos h2]
        exact Or.inr (Or.inl ⟨_, rfl⟩)
      · rw [if_neg h2]
        exact Or.inr (Or.inr ⟨_, rfl⟩)
  refine ⟨?_, hscalar, ?_⟩
  · intro h
    have hni : Parser.check t s TokenType.NUMBER = true ∨
        (Parser.check t s TokenType.NUMBER = false ∧
         Parser.check t s TokenType.IDENTIFIER = true) := by
      unfold Parser.isListStart at h
      by_cases h1 : Parser.check t s TokenType.NUMBER = true
      · exact Or.inl h1
      · have h1f : Parser.check t s TokenType.NUMBER = false := by
          cases hx : Parser.check t s TokenType.NUMBER
          · rfl
          · exact absurd hx h1
        refine Or.inr ⟨h1f, ?_⟩
        cases hx : Parser.check t s TokenType.IDENTIFIER
        · rw [if_pos (by simp [h1f, hx])] at h
          exact absurd h Bool.false_ne_true
        · rfl
    obtain ⟨tok, hp, hts⟩ : ∃ tok, Parser.peekT t s = some tok ∧
        (tok.type = TokenType.COMMA ∨ tok.type = TokenType.SLASH) := by
      unfold Parser.isListStart at h
      split at h
      · exact absurd h Bool.false_ne_true
      · rcases hp : Parser.peekT t s with _ | tok
        · rw [hp] at h
          exact absurd h Bool.false_ne_true
        · rw [hp] at h
          refine ⟨tok, rfl, ?_⟩
          rcases Bool.or_eq_true_iff.mp h with h2 | h2
          · exact Or.inl (by simpa using h2)
          · exact Or.inr (by simpa using h2)
    have hsep : ∀ l : Nat,
        Parser.check t { pos := s.pos + 1, curLine := l } TokenType.SLASH =
          ((Parser.peekT t s).map (·.type) == some TokenType.SLASH) := by
      intro l
      have hne : tok.type ≠ TokenType.EOF := by
        rcases hts with h2 | h2 <;> simp [h2]
      unfold Parser.check
      rw [isAtEnd_peek hp hne, cur_peek hp, hp]
      simp
    have hiff : ((Parser.peekT t s).map (·.type) == some TokenType.SLASH) =
        (if (Parser.peekT t s).map (·.type) = some TokenType.SLASH then true else false) := by
      by_cases hx : (Parser.peekT t s).map (·.type) = some TokenType.SLASH
      · simp [hx]
      · simp [hx]
    unfold Parser.parseValue
    rw [if_pos (by simp [h])]
    unfold Parser.parseList
    have hsepEq : ∀ l : Nat,
        (if Parser.check t { pos := s.pos + 1, curLine := l } TokenType.SLASH = true
         then '/' else ',') =
        (if (Parser.peekT t s).map (·.type) = some TokenType.SLASH then '/' else ',') := by
      intro l
      rw [hsep l]
      by_cases hx : (Parser.peekT t s).map (·.type) = some TokenType.SLASH
      · simp [hx]
      · simp [hx]
    rcases hni with h1 | ⟨h1f, h1⟩
    · rw [if_pos h1]
      unfold Parser.parseNumber
      rw [advance_of_check h1]
      exact ⟨_, _, congrArg _ (hsepEq _)⟩
    · rw [if_neg (by simp [h1f]), if_pos h1]
      unfold Parser.parseIdentifier
      rw [advance_of_check h1]
      exact ⟨_, _, congrArg _ (hsepEq _)⟩
  · intro sl el vals sep hEq
    by_cases hb : Parser.isListStart t s = true
    · exact hb
    · have h0 : Parser.isListStart t s = false := by
        cases hx : Parser.isListStart t s
        · rfl
        · exact absurd hx hb
      rcases hscalar h0 with ⟨n, hn⟩ | ⟨q, hq⟩ | ⟨i, hi⟩
      · rw [hEq] at hn
        simp at hn
      · rw [hEq] at hq
        simp at hq
      · rw [hEq] at hi
        simp at hi

/-- Witness for C9 at a concrete state: tokens `1 / 2`, cursor on the
first number. -/
theorem parseValue_list_spec_witness :
    ∃ el vals, (Parser.parseValue c9tokens { pos := 0, curLine := 1 }).1 =
      ValueNode.list (Parser.getCurrentLine c9tokens { pos := 0, curLine := 1 }) el vals
        (if (Parser.peekT c9tokens { pos := 0, curLine := 1 }).map (·.type) =
            some TokenType.SLASH then '/' else ',') :=
  (parseValue_list_spec c9tokens { pos := 0, curLine := 1 }).1 (by decide)

end

/-! ### Lexer length accounting (claims C2 and C8) -/

section
open Lexer

theorem len_take_drop (p : Char → Bool) (l : List Char) :
    (l.takeWhile p).length + (l.dropWhile p).length = l.length := by
  rw [← List.length_append, List.takeWhile_append_dropWhile]

theorem scanSign_len (input : List Char) :
    (scanSign input).1.length + (scanSign input).2.length = input.length := by
  cases input with
  | nil => rfl
  | cons c rest =>
    simp only [scanSign]
    by_cases hc : c = '-'
    · rw [if_pos hc]
      simp only [List.length_cons, List.length_nil]
      omega
    · rw [if_neg hc]
      simp

theorem scanDigits_len (input : List Char) :
    (scanDigits input).1.length + (scanDigits input).2.length = input.length := by
  unfold scanDigits
  exact len_take_drop _ _

theorem scanFrac_len (input : List Char) :
    (scanFrac input).1.length + (scanFrac input).2.length = input.length := by
  cases input with
  | nil => rfl
  | cons c rest =>
    simp only [scanFrac]
    by_cases hc : c = '.' ∧ isDigitC (rest.headD '\x00') = true
    · rw [if_pos hc]
      have h := len_take_drop isDigitC rest
      simp only [List.length_cons]
      omega
    · rw [if_neg hc]
      simp

theorem scanExp_len (input : List Char) :
    (scanExp input).1.length + (scanExp input).2.length = input.length := by
  cases input with
  | nil => rfl
  | cons e rest =>
    simp only [scanExp]
    by_cases he : e = 'E' ∨ e = 'e'
    · rw [if_pos he]
      cases rest with
      | nil => rfl
      | cons s r2 =>
        dsimp only
        by_cases hs : s = '+' ∨ s = '-'
        · rw [if_pos hs]
          have h := len_take_drop isDigitC r2
          simp only [List.length_cons]
          omega
        · rw [if_neg hs]
          have h := len_take_drop isDigitC (s :: r2)
          simp only [List.length_cons] at h ⊢
          omega
    · rw [if_neg he]
      simp

theorem scanNumber_len (input : List Char) :
    (scanNumber input).1.length + (scanNumber input).2.length = input.length := by
  unfold scanNumber
  have h0 := scanSign_len input
  have h1 := scanDigits_len (scanSign input).2
  have h2 := scanFrac_len (scanDigits (scanSign input).2).2
  have h3 := scanExp_len (scanFrac (scanDigits (scanSign input).2).2).2
  simp only [List.length_append]
  omega

theorem scanComment_len (c : Char) (cs : List Char) :
    (scanComment c cs).1.length + (scanComment c cs).2.length = cs.length + 1 ∧
    (scanComment c cs).2.length ≤ cs.length := by
  unfold scanComment
  have h := len_take_drop (fun x => x ≠ '\n') cs
  constructor
  · simp only [List.length_cons]
    omega
  · dsimp only
    omega

theorem scanIdentifier_len (c : Char) (cs : List Char) :
    (scanIdentifier c cs).1.length + (scanIdentifier c cs).2.length = cs.length + 1 ∧
    (scanIdentifier c cs).2.length ≤ cs.length := by
  unfold scanIdentifier
  have h := len_take_drop (fun x => isAlphaNumericC x || x = '_') cs
  constructor
  · simp only [List.length_cons]
    omega
  · dsimp only
    omega

theorem scanString_len (q : Char) (cs : List Char) :
    (scanString q cs).1.length + (scanString q cs).2.length = cs.length + 1 ∧
    (scanString q cs).2.length ≤ cs.length := by
  unfold scanString
  have h := len_take_drop (fun x => x ≠ q ∧ x ≠ '\n') cs
  rcases hd : cs.dropWhile (fun x => x ≠ q ∧ x ≠ '\n') with _ | ⟨r, rs⟩ <;>
    rw [hd] at h <;> dsimp only
  · simp only [List.length_cons, List.length_nil] at h ⊢
    omega
  · by_cases hr : r = q
    · rw [if_pos hr]
      simp only [List.length_append, List.length_cons, List.length_nil] at h ⊢
      omega
    · rw [if_neg hr]
      simp only [List.length_cons] at h ⊢
      omega

theorem scanNumber_pos (c : Char) (cs : List Char) (h : c = '-' ∨ isDigitC c = true) :
    1 ≤ (scanNumber (c :: cs)).1.length := by
  unfold scanNumber
  rcases h with rfl | h
  · simp only [scanSign, if_pos rfl]
    simp
  · have hc : c ≠ '-' := by
      rintro rfl
      exact absurd h (by decide)
    simp only [scanSign, if_neg hc]
    simp only [scanDigits]
    rw [List.takeWhile_cons_of_pos h]
    simp

theorem scanToken_size (c : Char) (cs : List Char) (line col : Nat) :
    ((Lexer.scanToken c cs line col).1.elim 1 (fun t => t.length)) +
      (Lexer.scanToken c cs line col).2.1.length = cs.length + 1 ∧
    (Lexer.scanToken c cs line col).2.1.length ≤ cs.length := by
  unfold Lexer.scanToken
  by_cases h1 : c = ' ' ∨ c = '\t' ∨ c = '\r'
  · rw [if_pos h1]
    exact ⟨by dsimp only [Option.elim]; omega, by dsimp only; omega⟩
  rw [if_neg h1]
  by_cases h2 : c = '\n'
  · rw [if_pos h2]
    exact ⟨by dsimp only [Option.elim]; omega, by dsimp only; omega⟩
  rw [if_neg h2]
  by_cases h3 : c = '$' ∨ c = '%'
  · rw [if_pos h3]
    have h := scanComment_len c cs
    exact ⟨by dsimp only [Option.elim]; omega, by dsimp only; omega⟩
  rw [if_neg h3]
  by_cases h4 : c = '&'
  · rw [if_pos h4]
    exact ⟨by dsimp only [Option.elim]; omega, by dsimp only; omega⟩
  rw [if_neg h4]
  by_cases h5 : c = '='
  · rw [if_pos h5]
    exact ⟨by dsimp only [Option.elim]; omega, by dsimp only; omega⟩
  rw [if_neg h5]
  by_cases h6 : c = ','
  · rw [if_pos h6]
    exact ⟨by dsimp only [Option.elim]; omega, by dsimp only; omega⟩
  rw [if_neg h6]
  by_cases h7 : c = '/'
  · rw [if_pos h7]
    exact ⟨by dsimp only [Option.elim]; omega, by dsimp only; omega⟩
  rw [if_neg h7]
  by_cases h8 : c = '+'
  · rw [if_pos h8]
    exact ⟨by dsimp only [Option.elim]; omega, by dsimp only; omega⟩
  rw [if_neg h8]
  by_cases h9 : c = '-'
  · rw [if_pos h9]
    by_cases h9b : isDigitC (cs.headD '\x00') = true
    · rw [if_pos h9b]
      have h := scanNumber_len (c :: cs)
      have hpos := scanNumber_pos c cs (Or.inl h9)
      simp only [List.length_cons] at h
      exact ⟨by dsimp only [Option.elim]; omega, by dsimp only; omega⟩
    · rw [if_neg h9b]
      exact ⟨by dsimp only [Option.elim]; omega, by dsimp only; omega⟩
  rw [if_neg h9]
  by_cases h10 : c = '*'
  · rw [if_pos h10]
    exact ⟨by dsimp only [Option.elim]; omega, by dsimp only; omega⟩
  rw [if_neg h10]
  by_cases h11 : c = '('
  · rw [if_pos h11]
    exact ⟨by dsimp only [Option.elim]; omega, by dsimp only; omega⟩
  rw [if_neg h11]
  by_cases h12 : c = ')'
  · rw [if_pos h12]
    exact ⟨by dsimp only [Option.elim]; omega, by dsimp only; omega⟩
  rw [if_neg h12]
  by_cases h13 : isDigitC c = true
  · rw [if_pos h13]
    have h := scanNumber_len (c :: cs)
    have hpos := scanNumber_pos c cs (Or.inr h13)
    simp only [List.length_cons] at h
    exact ⟨by dsimp only [Option.elim]; omega, by dsimp only; omega⟩
  rw [if_neg h13]
  by_cases h14 : isAlphaC c = true
  · rw [if_pos h14]
    have h := scanIdentifier_len c cs
    exact ⟨by dsimp only [Option.elim]; omega, by dsimp only; omega⟩
  rw [if_neg h14]
  by_cases h15 : c = '\x22' ∨ c = '\''
  · rw [if_pos h15]
    have h := scanString_len c cs
    exact ⟨by dsimp only [Option.elim]; omega, by dsimp only; omega⟩
  rw [if_neg h15]
  exact ⟨by dsimp only [Option.elim]; omega, by dsimp only; omega⟩

theorem tokenizeAux_fuel (f1 : Nat) : ∀ (f2 : Nat) (input : List Char) (line col : Nat),
    input.length < f1 → input.length < f2 →
    Lexer.tokenizeAux f1 input line col = Lexer.tokenizeAux f2 input line col := by
  induction f1 with
  | zero => intro f2 input line col h1 _; omega
  | succ f1 ih =>
    intro f2 input line col h1 h2
    match f2, input with
    | f2 + 1, [] => rfl
    | f2 + 1, c :: cs =>
      rw [Lexer.tokenizeAux, Lexer.tokenizeAux]
      have hs := scanToken_size c cs line col
      rcases hv : Lexer.scanToken c cs line col with ⟨tok?, rest, line2, col2⟩
      rw [hv] at hs
      dsimp only
      simp only [List.length_cons] at h1 h2
      rw [ih f2 rest line2 col2 (by dsimp only at hs; omega) (by dsimp only at hs; omega)]

theorem tokenizeAux_coverage (fuel : Nat) : ∀ (input : List Char) (line col : Nat),
    input.length < fuel →
    Lexer.sumLengths (Lexer.tokenizeAux fuel input line col).1 +
      (Lexer.tokenizeAux fuel input line col).2.2.2 = input.length := by
  induction fuel with
  | zero => intro input line col h; omega
  | succ fuel ih =>
    intro input line col h
    match input with
    | [] => simp [Lexer.tokenizeAux, Lexer.sumLengths]
    | c :: cs =>
      rw [Lexer.tokenizeAux]
      have hs := scanToken_size c cs line col
      rcases hv : Lexer.scanToken c cs line col with ⟨tok?, rest, line2, col2⟩
      rw [hv] at hs
      dsimp only at hs ⊢
      simp only [List.length_cons] at h
      have hrec := ih rest line2 col2 (by omega)
      rcases hr : Lexer.tokenizeAux fuel rest line2 col2 with ⟨toks, fl, fc, ws⟩
      rw [hr] at hrec
      dsimp only at hrec ⊢
      cases tok? with
      | none =>
        simp only [Option.toList, Option.isNone, List.nil_append, if_pos rfl] at hs ⊢
        simp only [Option.elim] at hs
        simp only [List.length_cons, if_true]
        omega
      | some t =>
        simp only [Option.toList, Option.isNone, List.cons_append, List.nil_append] at hs ⊢
        simp only [Option.elim] at hs
        simp only [Lexer.sumLengths, List.map_cons, List.sum_cons, List.length_cons,
          Bool.false_eq_true, if_false] at hrec ⊢
        omega

theorem sumLengths_append (xs ys : List Token) :
    Lexer.sumLengths (xs ++ ys) = Lexer.sumLengths xs + Lexer.sumLengths ys := by
  simp [Lexer.sumLengths]

theorem sumLengths_tokenize (input : List Char) :
    Lexer.sumLengths (Lexer.tokenize input) + Lexer.wsDiscarded input = input.length := by
  have h := tokenizeAux_coverage (input.length + 1) input 1 1 (by omega)
  rw [Lexer.tokenize, Lexer.wsDiscarded]
  rcases ht : Lexer.tokenizeAux (input.length + 1) input 1 1 with ⟨toks, fl, fc, ws⟩
  rw [ht] at h
  dsimp only at h ⊢
  rw [sumLengths_append]
  simp only [Lexer.sumLengths, List.map_cons, List.map_nil, List.sum_cons, List.sum_nil] at h ⊢
  omega

theorem scanToken_unknown (c : Char) (cs : List Char) (line col : Nat)
    (hc : Lexer.isUnrecognizedChar c = true) :
    Lexer.scanToken c cs line col =
      (some { type := .UNKNOWN, value := String.mk [c], line := line, column := col,
              length := 1 }, cs, line, col + 1) := by
  simp only [Lexer.isUnrecognizedChar, Bool.not_eq_true', Bool.or_eq_false_iff,
    decide_eq_false_iff_not] at hc
  obtain ⟨⟨⟨⟨⟨⟨⟨⟨⟨⟨⟨⟨⟨⟨⟨⟨⟨⟨hA, hB⟩, hC⟩, hD⟩, hE⟩, hF⟩, hG⟩, hH⟩, hI⟩, hJ⟩,
    hK⟩, hL⟩, hM⟩, hN⟩, hO⟩, hP⟩, hQ⟩, hR⟩, hS⟩ := hc
  rw [Lexer.scanToken]
  rw [if_neg (by rintro (h | h | h); exacts [hA h, hB h, hC h])]
  rw [if_neg hD]
  rw [if_neg (by rintro (h | h); exacts [hE h, hF h])]
  rw [if_neg hG, if_neg hH, if_neg hI, if_neg hJ, if_neg hK, if_neg hL,
    if_neg hM, if_neg hN, if_neg hO]
  rw [if_neg (by simp [hP]), if_neg (by simp [hQ])]
  rw [if_neg (by rintro (h | h); exacts [hR h, hS h])]

theorem tokenize_last_eof (input : List Char) :
    ∃ l k, (Lexer.tokenize input).getLast? =
      some { type := .EOF, value := "", line := l, column := k, length := 0 } := by
  rw [Lexer.tokenize]
  rcases ht : Lexer.tokenizeAux (input.length + 1) input 1 1 with ⟨toks, fl, fc, ws⟩
  dsimp only
  refine ⟨fl, fc, ?_⟩
  rw [List.getLast?_concat]

/-- C8: every character of the input is accounted for by exactly one token or
discarded as insignificant whitespace: the sum of the `length` fields of the
tokens produced by `tokenize` (the end-of-input token contributing 0) plus the
count of discarded whitespace characters equals the length of the input. -/
theorem tokenize_coverage (input : List Char) :
    Lexer.sumLengths (Lexer.tokenize input) + Lexer.wsDiscarded input = input.length :=
  sumLengths_tokenize input

/-- C2: `tokenize` is total — its fueled loop stabilizes at fuel
`input.length + 1`, so any larger fuel gives the same result (the `while` loop
of the source terminates) — its last token is always the end-of-input token,
and a character matching no scanning rule yields an `UNKNOWN` token instead of
an error. -/
theorem tokenize_totality (input cs : List Char) (c : Char) (line col fuel : Nat)
    (hfuel : input.length < fuel) (hc : Lexer.isUnrecognizedChar c = true) :
    Lexer.tokenizeAux fuel input 1 1 = Lexer.tokenizeAux (input.length + 1) input 1 1 ∧
    (∃ l k, (Lexer.tokenize input).getLast? =
      some { type := .EOF, value := "", line := l, column := k, length := 0 }) ∧
    Lexer.scanToken c cs line col =
      (some { type := .UNKNOWN, value := String.mk [c], line := line, column := col,
              length := 1 }, cs, line, col + 1) :=
  ⟨tokenizeAux_fuel fuel (input.length + 1) input 1 1 hfuel (by omega),
   tokenize_last_eof input,
   scanToken_unknown c cs line col hc⟩

/-- Witness for C2 at the concrete input `"@#"` and the unrecognized
character `@`. -/
theorem tokenize_totality_witness :
    Lexer.tokenizeAux 5 "@#".data 1 1 =
      Lexer.tokenizeAux ("@#".data.length + 1) "@#".data 1 1 ∧
    (∃ l k, (Lexer.tokenize "@#".data).getLast? =
      some { type := .EOF, value := "", line := l, column := k, length := 0 }) ∧
    Lexer.scanToken '@' "#".data 1 1 =
      (some { type := .UNKNOWN, value := String.mk ['@'], line := 1, column := 1,
              length := 1 }, "#".data, 1, 1 + 1) :=
  tokenize_totality "@#".data "#".data '@' 1 1 5 (by decide) (by decide)

end

/-! ### Symbol-table invariants and claims C5, C6 and C7 -/

section
open SymbolTable

theorem tblGet_nil (k : String) : tblGet [] k = none := rfl

theorem tblGet_cons (e : String × Symbol) (m : SymTbl) (k : String) :
    tblGet (e :: m) k = if e.1 = k then some e.2 else tblGet m k := by
  simp only [tblGet, List.find?_cons]
  by_cases h : e.1 = k
  · simp [h]
  · simp only [if_neg h]
    rw [show (e.1 == k) = false from by simp [h]]

theorem tblGet_append_of_some (m1 m2 : SymTbl) (k : String) (s : Symbol)
    (h : tblGet m1 k = some s) : tblGet (m1 ++ m2) k = some s := by
  induction m1 with
  | nil => simp [tblGet_nil] at h
  | cons e m ih =>
    rw [tblGet_cons] at h
    rw [List.cons_append, tblGet_cons]
    by_cases he : e.1 = k
    · rwa [if_pos he] at h ⊢
    · rw [if_neg he] at h ⊢
      exact ih h

theorem tblGet_append_of_none (m1 m2 : SymTbl) (k : String)
    (h : tblGet m1 k = none) : tblGet (m1 ++ m2) k = tblGet m2 k := by
  induction m1 with
  | nil => simp
  | cons e m ih =>
    rw [tblGet_cons] at h
    rw [List.cons_append, tblGet_cons]
    by_cases he : e.1 = k
    · rw [if_pos he] at h; cases h
    · rw [if_neg he] at h ⊢
      exact ih h

theorem tblGet_singleton (k' : String) (s : Symbol) (k : String) :
    tblGet [(k', s)] k = if k' = k then some s else none := by
  rw [show ([(k', s)] : SymTbl) = (k', s) :: [] from rfl, tblGet_cons, tblGet_nil]

theorem tblGet_modify (m : SymTbl) (k' : String) (f : Symbol → Symbol) (k : String) :
    tblGet (tblModify m k' f) k =
      if k = k' then (tblGet m k).map f else tblGet m k := by
  induction m with
  | nil => by_cases h : k = k' <;> simp [tblModify, tblGet_nil, h]
  | cons e m ih =>
    have step : tblModify (e :: m) k' f =
        (if e.1 = k' then (e.1, f e.2) else e) :: tblModify m k' f := by
      simp only [tblModify, List.map_cons]
      by_cases hek : e.1 = k'
      · simp [hek]
      · simp [hek]
    rw [step, tblGet_cons, tblGet_cons]
    by_cases hek : e.1 = k'
    · rw [if_pos hek]
      dsimp only
      by_cases h : e.1 = k
      · have hkk : k = k' := h ▸ hek
        rw [if_pos h, if_pos h, if_pos hkk]
        simp
      · rw [if_neg h, if_neg h, ih]
    · rw [if_neg hek]
      by_cases h : e.1 = k
      · have hkk : ¬ (k = k') := fun hh => hek (h.trans hh)
        rw [if_pos h, if_pos h, if_neg hkk]
      · rw [if_neg h, if_neg h, ih]

theorem tblHas_eq_isSome (m : SymTbl) (k : String) :
    tblHas m k = (tblGet m k).isSome := by
  induction m with
  | nil => rfl
  | cons e m ih =>
    rw [tblGet_cons]
    simp only [tblHas, List.any_cons] at ih ⊢
    by_cases h : e.1 = k
    · simp [h]
    · rw [show (e.1 == k) = false from by simp [h], if_neg h, Bool.false_or, ih]

theorem tblGet_mem (m : SymTbl) (k : String) (s : Symbol)
    (h : tblGet m k = some s) : (k, s) ∈ m := by
  induction m with
  | nil => simp [tblGet_nil] at h
  | cons e m ih =>
    rw [tblGet_cons] at h
    by_cases he : e.1 = k
    · rw [if_pos he] at h
      have hs := Option.some.inj h
      have he2 : e = (k, s) := by
        rcases e with ⟨e1, e2⟩
        dsimp only at he hs
        rw [he, hs]
      rw [he2]
      exact List.mem_cons_self _ _
    · rw [if_neg he] at h
      exact List.mem_cons_of_mem _ (ih h)

theorem mem_tblGet_of_nodup (m : SymTbl) (k : String) (s : Symbol)
    (hmem : (k, s) ∈ m) (hnd : (m.map (·.1)).Nodup) : tblGet m k = some s := by
  induction m with
  | nil => simp at hmem
  | cons e m ih =>
    rw [List.map_cons, List.nodup_cons] at hnd
    rw [tblGet_cons]
    rcases List.mem_cons.mp hmem with h | h
    · rw [← h]
      simp
    · have : e.1 ≠ k := by
        intro hk
        exact hnd.1 (hk ▸ (List.mem_map.mpr ⟨(k, s), h, rfl⟩))
      rw [if_neg this]
      exact ih h hnd.2

theorem tblModify_map_fst (m : SymTbl) (k : String) (f : Symbol → Symbol) :
    (tblModify m k f).map (·.1) = m.map (·.1) := by
  induction m with
  | nil => rfl
  | cons e m ih =>
    simp only [tblModify, List.map_cons] at ih ⊢
    by_cases h : e.1 = k
    · simp only [h, beq_self_eq_true, if_true, List.map_cons, ih]
    · have hb : (e.1 == k) = false := by simp [h]
      rw [if_neg (by simp [hb])]
      simp only [List.map_cons, ih]

theorem applyOps_append (tbl : SymTbl) (l1 l2 : List SymOp) :
    applyOps tbl (l1 ++ l2) = applyOps (applyOps tbl l1) l2 := by
  simp [applyOps, List.foldl_append]

theorem foldl_applyOps_flatten (g : StatementNode → List SymOp)
    (f : SymTbl → StatementNode → SymTbl)
    (hf : ∀ tb stmt, f tb stmt = applyOps tb (g stmt)) :
    ∀ (stmts : List StatementNode) (tbl : SymTbl),
      stmts.foldl f tbl = applyOps tbl (stmts.map g).flatten := by
  intro stmts
  induction stmts with
  | nil => intro tbl; rfl
  | cons st rest ih =>
    intro tbl
    rw [List.foldl_cons, List.map_cons, List.flatten_cons, applyOps_append, ← hf, ih]

theorem foldl_addComponent_eq (comps : List ComponentNode) :
    ∀ tbl : SymTbl, comps.foldl addComponent tbl = applyOps tbl (comps.map .addComp) := by
  induction comps with
  | nil => intro tbl; rfl
  | cons c rest ih =>
    intro tbl
    rw [List.foldl_cons, List.map_cons, show applyOps tbl (SymOp.addComp c :: rest.map .addComp) =
      applyOps (addComponent tbl c) (rest.map .addComp) from rfl, ih]

theorem foldl_addRef_eq (ctx : String) (mk : StreamReferenceNode → String × Nat)
    (refs : List StreamReferenceNode) : ∀ tbl : SymTbl,
    refs.foldl (fun tb r => addStreamReference tb (mk r).1 (mk r).2 ctx) tbl =
      applyOps tbl (refs.map (fun r => .addRef (mk r).1 (mk r).2 ctx)) := by
  induction refs with
  | nil => intro tbl; rfl
  | cons r rest ih =>
    intro tbl
    rw [List.foldl_cons, List.map_cons, show applyOps tbl
      (SymOp.addRef (mk r).1 (mk r).2 ctx :: rest.map (fun r => .addRef (mk r).1 (mk r).2 ctx)) =
      applyOps (addStreamReference tbl (mk r).1 (mk r).2 ctx)
        (rest.map (fun r => .addRef (mk r).1 (mk r).2 ctx)) from rfl, ih]

theorem processUnitStatement_eq (tbl : SymTbl) (stmt : StatementNode) :
    processUnitStatement tbl stmt = applyOps tbl (stmtOpsUnit stmt) := by
  cases stmt with
  | unitOperation sl el sty uid nm feeds prods =>
    simp only [processUnitStatement, stmtOpsUnit, applyOps_append]
    have hfeeds : ∀ tb : SymTbl, feeds.foldl
        (fun tb fr => addStreamReference tb fr.streamName.name fr.startLine "feed") tb =
        applyOps tb (feeds.map (fun fr => .addRef fr.streamName.name fr.startLine "feed")) := by
      intro tb
      exact foldl_addRef_eq "feed" (fun fr => (fr.streamName.name, fr.startLine)) feeds tb
    have hprods : ∀ tb : SymTbl, prods.foldl
        (fun tb pr => addStreamReference tb pr.streamName.name pr.startLine "product") tb =
        applyOps tb (prods.map (fun pr => .addRef pr.streamName.name pr.startLine "product")) := by
      intro tb
      exact foldl_addRef_eq "product" (fun pr => (pr.streamName.name, pr.startLine)) prods tb
    cases uid with
    | none => rw [hfeeds, hprods]; rfl
    | some u => rw [hfeeds, hprods]; rfl
  | componentData a b c d => rfl
  | streamData a b c d e f => rfl
  | thermodynamicData a b c d e => rfl
  | printStatement a b c => rfl

theorem processSection_eq (txt : String) (tbl : SymTbl) (sec : SectionNode) :
    processSection txt tbl sec = applyOps tbl (sectionOps txt sec) := by
  rcases sec with ⟨sl, el, sty, stmts⟩
  cases sty with
  | COMPONENT_DATA =>
    simp only [processSection, sectionOps, processComponentData]
    refine foldl_applyOps_flatten stmtOpsComp _ ?_ stmts tbl
    intro tb stmt
    cases stmt with
    | componentData a b c comps => exact foldl_addComponent_eq comps tb
    | streamData a b c d e f => rfl
    | unitOperation a b c d e f g => rfl
    | thermodynamicData a b c d e => rfl
    | printStatement a b c => rfl
  | STREAM_DATA =>
    simp only [processSection, sectionOps, processStreamData]
    refine foldl_applyOps_flatten (stmtOpsStream txt) _ ?_ stmts tbl
    intro tb stmt
    cases stmt with
    | componentData a b c comps => rfl
    | streamData a b c d e f => rfl
    | unitOperation a b c d e f g => rfl
    | thermodynamicData a b c d e => rfl
    | printStatement a b c => rfl
  | UNIT_OPERATIONS =>
    simp only [processSection, sectionOps, processUnitOperations]
    exact foldl_applyOps_flatten stmtOpsUnit _ processUnitStatement_eq stmts tbl
  | THERMODYNAMIC_DATA => rfl
  | PRINT => rfl
  | OTHER => rfl

theorem build_eq_applyOps (ast : ProgramNode) (txt : String) :
    build ast txt = applyOps [] (opsOf ast txt) := by
  rw [build, opsOf]
  generalize ([] : SymTbl) = tbl
  induction ast.sections generalizing tbl with
  | nil => rfl
  | cons sec rest ih =>
    rw [List.foldl_cons, List.map_cons, List.flatten_cons, applyOps_append,
      processSection_eq, ih]

theorem tblGet_of_has_false (m : SymTbl) (k : String) (h : tblHas m k = false) :
    tblGet m k = none := by
  rw [tblHas_eq_isSome] at h
  exact Option.not_isSome_iff_eq_none.mp (by simp [h])

theorem applyOps_preserve (P : SymTbl → Prop) (ops : List SymOp)
    (h : ∀ tbl op, op ∈ ops → P tbl → P (applyOp tbl op)) :
    ∀ tbl, P tbl → P (applyOps tbl ops) := by
  induction ops with
  | nil => intro tbl hp; exact hp
  | cons op rest ih =>
    intro tbl hp
    show P (applyOps (applyOp tbl op) rest)
    exact ih (fun tb o ho => h tb o (List.mem_cons_of_mem _ ho))
      _ (h tbl op (List.mem_cons_self _ _) hp)

theorem applyOp_stable (tbl : SymTbl) (op : SymOp) (k : String) (s : Symbol)
    (h : tblGet tbl k = some s) :
    ∃ s2, tblGet (applyOp tbl op) k = some s2 ∧ s2.name = s.name ∧
      s2.kind = s.kind ∧ s2.definedAtLine = s.definedAtLine ∧
      ∃ extra, s2.references = s.references ++ extra := by
  have hsame : ∃ s2, tblGet tbl k = some s2 ∧ s2.name = s.name ∧
      s2.kind = s.kind ∧ s2.definedAtLine = s.definedAtLine ∧
      ∃ extra, s2.references = s.references ++ extra :=
    ⟨s, h, rfl, rfl, rfl, [], (List.append_nil _).symm⟩
  cases op with
  | addComp c =>
    simp only [applyOp, addComponent]
    by_cases hh : tblHas tbl (jsToUpper c.identifier) = true
    · rw [if_pos hh]
      exact hsame
    · rw [if_neg hh]
      exact ⟨s, tblGet_append_of_some _ _ _ _ h, rfl, rfl, rfl, [], (List.append_nil _).symm⟩
  | addStr n l ctx txt =>
    simp only [applyOp, addStream]
    by_cases hh : tblHas tbl (jsToUpper n) = true
    · rw [if_neg (by simp [hh])]
      rw [tblGet_modify]
      by_cases hk : k = jsToUpper n
      · rw [if_pos hk, h]
        simp only [Option.map_some']
        by_cases hkind : s.kind == SymbolKind.stream
        · rw [if_pos hkind]
          by_cases hctx : (ctx == "definition" && !(txt == "")) = true
          · rw [if_pos hctx]
            exact ⟨_, rfl, rfl, rfl, rfl, [⟨l, ctx⟩], rfl⟩
          · rw [if_neg hctx]
            exact ⟨_, rfl, rfl, rfl, rfl, [⟨l, ctx⟩], rfl⟩
        · rw [if_neg hkind]
          exact ⟨s, rfl, rfl, rfl, rfl, [], (List.append_nil _).symm⟩
      · rw [if_neg hk]
        exact hsame
    · rw [if_pos (by simp [hh])]
      exact ⟨s, tblGet_append_of_some _ _ _ _ h, rfl, rfl, rfl, [], (List.append_nil _).symm⟩
  | addRef n l ctx =>
    simp only [applyOp, addStreamReference]
    by_cases hh : tblHas tbl (jsToUpper n) = true
    · rw [if_neg (by simp [hh])]
      rw [tblGet_modify]
      by_cases hk : k = jsToUpper n
      · rw [if_pos hk, h]
        exact ⟨_, rfl, rfl, rfl, rfl, [⟨l, ctx⟩], rfl⟩
      · rw [if_neg hk]
        exact hsame
    · rw [if_pos (by simp [hh])]
      exact ⟨s, tblGet_append_of_some _ _ _ _ h, rfl, rfl, rfl, [], (List.append_nil _).symm⟩
  | addUn n l ty =>
    simp only [applyOp, addUnit]
    by_cases hh : tblHas tbl (jsToUpper n) = true
    · rw [if_neg (by simp [hh])]
      exact hsame
    · rw [if_pos (by simp [hh])]
      exact ⟨s, tblGet_append_of_some _ _ _ _ h, rfl, rfl, rfl, [], (List.append_nil _).symm⟩

theorem tblGet_append_other (m : SymTbl) (k' : String) (s' : Symbol) (k : String)
    (hne : k' ≠ k) : tblGet (m ++ [(k', s')]) k = tblGet m k := by
  rcases hg : tblGet m k with _ | s
  · rw [tblGet_append_of_none _ _ _ hg, tblGet_singleton, if_neg hne]
  · exact tblGet_append_of_some _ _ _ _ hg

theorem tblGet_append_self (m : SymTbl) (k : String) (s' : Symbol)
    (hnone : tblGet m k = none) : tblGet (m ++ [(k, s')]) k = some s' := by
  rw [tblGet_append_of_none _ _ _ hnone, tblGet_singleton, if_pos rfl]

theorem KeyGood_applyOp (tbl : SymTbl) (op : SymOp) (X : String)
    (hsafe : OpSafe X op) (h : KeyGood X tbl) : KeyGood X (applyOp tbl op) := by
  obtain ⟨s, hget, hname, hkind, hne, hrefs⟩ := h
  have hhas : tblHas tbl (jsToUpper X) = true := by
    rw [tblHas_eq_isSome, hget]; rfl
  cases op with
  | addComp c =>
    simp only [applyOp, addComponent]
    by_cases hh : tblHas tbl (jsToUpper c.identifier) = true
    · rw [if_pos hh]
      exact ⟨s, hget, hname, hkind, hne, hrefs⟩
    · rw [if_neg hh]
      exact ⟨s, tblGet_append_of_some _ _ _ _ hget, hname, hkind, hne, hrefs⟩
  | addStr n l ctx txt =>
    simp only [OpSafe] at hsafe
    simp only [applyOp, addStream]
    by_cases hh : tblHas tbl (jsToUpper n) = true
    · rw [if_neg (by simp [hh])]
      refine ⟨s, ?_, hname, hkind, hne, hrefs⟩
      rw [tblGet_modify, if_neg (fun hk => hsafe hk.symm), hget]
    · rw [if_pos (by simp [hh])]
      exact ⟨s, tblGet_append_of_some _ _ _ _ hget, hname, hkind, hne, hrefs⟩
  | addRef n l ctx =>
    simp only [OpSafe] at hsafe
    simp only [applyOp, addStreamReference]
    by_cases hX : jsToUpper n = jsToUpper X
    · rw [if_neg (by simp [hX ▸ hhas])]
      refine ⟨{ s with references := s.references ++ [⟨l, ctx⟩] }, ?_, hname, hkind, ?_, ?_⟩
      · rw [tblGet_modify, if_pos hX.symm, hget]
        rfl
      · simp
      · intro r hr
        rcases List.mem_append.mp hr with hr | hr
        · exact hrefs r hr
        · rcases List.mem_singleton.mp hr with rfl
          exact hsafe
    · by_cases hh : tblHas tbl (jsToUpper n) = true
      · rw [if_neg (by simp [hh])]
        refine ⟨s, ?_, hname, hkind, hne, hrefs⟩
        rw [tblGet_modify, if_neg (fun hk => hX hk.symm), hget]
      · rw [if_pos (by simp [hh])]
        exact ⟨s, by rw [tblGet_append_other _ _ _ _ hX]; exact hget, hname, hkind, hne, hrefs⟩
  | addUn n l ty =>
    simp only [OpSafe] at hsafe
    simp only [applyOp, addUnit]
    by_cases hh : tblHas tbl (jsToUpper n) = true
    · rw [if_neg (by simp [hh])]
      exact ⟨s, hget, hname, hkind, hne, hrefs⟩
    · rw [if_pos (by simp [hh])]
      exact ⟨s, by rw [tblGet_append_other _ _ _ _ hsafe]; exact hget, hname, hkind, hne, hrefs⟩

theorem KeyClean_applyOp (tbl : SymTbl) (op : SymOp) (X : String)
    (hsafe : OpSafe X op) (h : KeyClean X tbl) : KeyClean X (applyOp tbl op) := by
  rcases h with hnone | hgood
  · cases op with
    | addComp c =>
      simp only [OpSafe] at hsafe
      simp only [applyOp, addComponent]
      by_cases hh : tblHas tbl (jsToUpper c.identifier) = true
      · rw [if_pos hh]
        exact Or.inl hnone
      · rw [if_neg hh]
        exact Or.inl (by rw [tblGet_append_other _ _ _ _ hsafe]; exact hnone)
    | addStr n l ctx txt =>
      simp only [OpSafe] at hsafe
      simp only [applyOp, addStream]
      by_cases hh : tblHas tbl (jsToUpper n) = true
      · rw [if_neg (by simp [hh])]
        refine Or.inl ?_
        rw [tblGet_modify, if_neg (fun hk => hsafe hk.symm)]
        exact hnone
      · rw [if_pos (by simp [hh])]
        exact Or.inl (by rw [tblGet_append_other _ _ _ _ hsafe]; exact hnone)
    | addRef n l ctx =>
      simp only [OpSafe] at hsafe
      simp only [applyOp, addStreamReference]
      by_cases hX : jsToUpper n = jsToUpper X
      · have hh : tblHas tbl (jsToUpper n) = false := by
          rw [tblHas_eq_isSome, hX, hnone]
          rfl
        rw [if_pos (by simp [hh])]
        refine Or.inr
          ⟨{ name := jsToUpper n, kind := .stream, definedAtLine := l,
             references := [{ line := l, context := ctx }], metadata := none },
           ?_, hX, rfl, by simp, ?_⟩
        · rw [← hX]
          exact tblGet_append_self _ _ _ (by rw [hX]; exact hnone)
        · intro r hr
          rcases List.mem_singleton.mp hr with rfl
          exact hsafe
      · by_cases hh : tblHas tbl (jsToUpper n) = true
        · rw [if_neg (by simp [hh])]
          refine Or.inl ?_
          rw [tblGet_modify, if_neg (fun hk => hX hk.symm)]
          exact hnone
        · rw [if_pos (by simp [hh])]
          exact Or.inl (by rw [tblGet_append_other _ _ _ _ hX]; exact hnone)
    | addUn n l ty =>
      simp only [OpSafe] at hsafe
      simp only [applyOp, addUnit]
      by_cases hh : tblHas tbl (jsToUpper n) = true
      · rw [if_neg (by simp [hh])]
        exact Or.inl hnone
      · rw [if_pos (by simp [hh])]
        exact Or.inl (by rw [tblGet_append_other _ _ _ _ hsafe]; exact hnone)
  · exact Or.inr (KeyGood_applyOp tbl op X hsafe hgood)

theorem KeyGood_addRef (tbl : SymTbl) (X n : String) (l : Nat) (ctx : String)
    (hX : jsToUpper n = jsToUpper X) (hctx : ctx ≠ "definition")
    (h : KeyClean X tbl) : KeyGood X (applyOp tbl (.addRef n l ctx)) := by
  rcases h with hnone | hgood
  · simp only [applyOp, addStreamReference]
    have hh : tblHas tbl (jsToUpper n) = false := by
      rw [tblHas_eq_isSome, hX, hnone]
      rfl
    rw [if_pos (by simp [hh])]
    refine
      ⟨{ name := jsToUpper n, kind := .stream, definedAtLine := l,
         references := [{ line := l, context := ctx }], metadata := none },
       ?_, hX, rfl, by simp, ?_⟩
    · rw [← hX]
      exact tblGet_append_self _ _ _ (by rw [hX]; exact hnone)
    · intro r hr
      rcases List.mem_singleton.mp hr with rfl
      exact hctx
  · exact KeyGood_applyOp tbl (.addRef n l ctx) X hctx hgood

theorem KeyDefended_applyOp (tbl : SymTbl) (op : SymOp) (X : String)
    (h : KeyDefended X tbl) : KeyDefended X (applyOp tbl op) := by
  obtain ⟨s, hget, hdef⟩ := h
  obtain ⟨s2, hget2, _, hkind2, _, extra, hrefs2⟩ := applyOp_stable tbl op (jsToUpper X) s hget
  refine ⟨s2, hget2, fun hk => ?_⟩
  obtain ⟨r, hr, hrc⟩ := hdef (hkind2 ▸ hk)
  exact ⟨r, hrefs2 ▸ List.mem_append_left _ hr, hrc⟩

theorem addStream_new_get (tbl : SymTbl) (n : String) (l : Nat) (ctx txt : String)
    (hg : tblGet tbl (jsToUpper n) = none) :
    tblGet (addStream tbl n l ctx txt) (jsToUpper n) =
      some { name := jsToUpper n, kind := .stream, definedAtLine := l,
             references := [{ line := l, context := ctx }],
             metadata := some (extractStreamProperties txt) } := by
  have hh : tblHas tbl (jsToUpper n) = false := by
    rw [tblHas_eq_isSome, hg]
    rfl
  simp only [addStream]
  rw [if_pos (by simp [hh])]
  exact tblGet_append_self _ _ _ hg

theorem addStream_stream_get (tbl : SymTbl) (n : String) (l : Nat) (ctx txt : String)
    (s0 : Symbol) (hg : tblGet tbl (jsToUpper n) = some s0) (hk : s0.kind = .stream) :
    ∃ md, tblGet (addStream tbl n l ctx txt) (jsToUpper n) =
      some { name := s0.name, kind := s0.kind, definedAtLine := s0.definedAtLine,
             references := s0.references ++ [{ line := l, context := ctx }],
             metadata := md } := by
  have hh : tblHas tbl (jsToUpper n) = true := by
    rw [tblHas_eq_isSome, hg]
    rfl
  have hkb : (s0.kind == SymbolKind.stream) = true := by rw [hk]; rfl
  simp only [addStream]
  rw [if_neg (by simp [hh]), tblGet_modify, if_pos rfl, hg, Option.map_some']
  by_cases hc : (ctx == "definition" && !(txt == "")) = true
  · exact ⟨_, by rw [if_pos hkb, if_pos hc]⟩
  · exact ⟨_, by rw [if_pos hkb, if_neg hc]⟩

theorem addStream_nonstream_get (tbl : SymTbl) (n : String) (l : Nat) (ctx txt : String)
    (s0 : Symbol) (hg : tblGet tbl (jsToUpper n) = some s0) (hk : ¬ s0.kind = .stream) :
    tblGet (addStream tbl n l ctx txt) (jsToUpper n) = some s0 := by
  have hh : tblHas tbl (jsToUpper n) = true := by
    rw [tblHas_eq_isSome, hg]
    rfl
  have hkb : (s0.kind == SymbolKind.stream) = false := by
    simpa using hk
  simp only [addStream]
  rw [if_neg (by simp [hh]), tblGet_modify, if_pos rfl, hg, Option.map_some']
  rw [if_neg (by simp [hkb])]

theorem addRef_new_get (tbl : SymTbl) (n : String) (l : Nat) (ctx : String)
    (hg : tblGet tbl (jsToUpper n) = none) :
    tblGet (addStreamReference tbl n l ctx) (jsToUpper n) =
      some { name := jsToUpper n, kind := .stream, definedAtLine := l,
             references := [{ line := l, context := ctx }], metadata := none } := by
  have hh : tblHas tbl (jsToUpper n) = false := by
    rw [tblHas_eq_isSome, hg]
    rfl
  simp only [addStreamReference]
  rw [if_pos (by simp [hh])]
  exact tblGet_append_self _ _ _ hg

theorem addRef_present_get (tbl : SymTbl) (n : String) (l : Nat) (ctx : String)
    (s0 : Symbol) (hg : tblGet tbl (jsToUpper n) = some s0) :
    tblGet (addStreamReference tbl n l ctx) (jsToUpper n) =
      some { s0 with references := s0.references ++ [{ line := l, context := ctx }] } := by
  have hh : tblHas tbl (jsToUpper n) = true := by
    rw [tblHas_eq_isSome, hg]
    rfl
  simp only [addStreamReference]
  rw [if_neg (by simp [hh]), tblGet_modify, if_pos rfl, hg, Option.map_some']

theorem addUnit_present (tbl : SymTbl) (n : String) (l : Nat) (ty : String)
    (hh : tblHas tbl (jsToUpper n) = true) : addUnit tbl n l ty = tbl := by
  simp only [addUnit]
  rw [if_neg (by simp [hh])]

theorem addUnit_new_get (tbl : SymTbl) (n : String) (l : Nat) (ty : String)
    (hg : tblGet tbl (jsToUpper n) = none) :
    tblGet (addUnit tbl n l ty) (jsToUpper n) =
      some { name := jsToUpper n, kind := .unit, definedAtLine := l,
             references := [{ line := l, context := "definition" }],
             metadata := some { unitType := some ty } } := by
  have hh : tblHas tbl (jsToUpper n) = false := by
    rw [tblHas_eq_isSome, hg]
    rfl
  simp only [addUnit]
  rw [if_pos (by simp [hh])]
  exact tblGet_append_self _ _ _ hg

theorem KeyDefended_addStr (tbl : SymTbl) (X n : String) (l : Nat) (txt : String)
    (hX : jsToUpper n = jsToUpper X) :
    KeyDefended X (applyOp tbl (.addStr n l "definition" txt)) := by
  show KeyDefended X (addStream tbl n l "definition" txt)
  rcases hg : tblGet tbl (jsToUpper n) with _ | s0
  · refine ⟨_, hX ▸ addStream_new_get tbl n l "definition" txt hg, fun _ => ?_⟩
    exact ⟨{ line := l, context := "definition" }, List.mem_singleton.mpr rfl, rfl⟩
  · by_cases hk : s0.kind = .stream
    · obtain ⟨md, hmd⟩ := addStream_stream_get tbl n l "definition" txt s0 hg hk
      refine ⟨_, hX ▸ hmd, fun _ => ?_⟩
      exact ⟨{ line := l, context := "definition" },
        List.mem_append_right _ (List.mem_singleton.mpr rfl), rfl⟩
    · refine ⟨s0, hX ▸ addStream_nonstream_get tbl n l "definition" txt s0 hg hk,
        fun hks => absurd hks hk⟩

theorem applyOps_estab (P : SymTbl → Prop) (ops : List SymOp) (op : SymOp)
    (hmem : op ∈ ops) (hestab : ∀ tbl, P (applyOp tbl op))
    (hpres : ∀ tbl o, o ∈ ops → P tbl → P (applyOp tbl o)) :
    ∀ tbl, P (applyOps tbl ops) := by
  induction ops with
  | nil => cases hmem
  | cons o rest ih =>
    intro tbl
    show P (applyOps (applyOp tbl o) rest)
    rcases List.mem_cons.mp hmem with rfl | hmem2
    · exact applyOps_preserve P rest
        (fun tb o2 ho2 => hpres tb o2 (List.mem_cons_of_mem _ ho2)) _ (hestab tbl)
    · exact ih hmem2 (fun tb o2 ho2 => hpres tb o2 (List.mem_cons_of_mem _ ho2)) _

theorem tblHas_false_not_mem (m : SymTbl) (k : String) (h : tblHas m k = false) :
    k ∉ m.map (·.1) := by
  intro hk
  obtain ⟨e, he, hek⟩ := List.mem_map.mp hk
  have := List.any_eq_false.mp h e he
  simp [hek] at this

theorem mem_tblModify (m : SymTbl) (k : String) (f : Symbol → Symbol)
    (e : String × Symbol) (he : e ∈ tblModify m k f) :
    ∃ e0 ∈ m, e.1 = e0.1 ∧ (e.2 = e0.2 ∨ e.2 = f e0.2) := by
  obtain ⟨e0, he0, heq⟩ := List.mem_map.mp he
  refine ⟨e0, he0, ?_⟩
  by_cases hk : (e0.1 == k) = true
  · rw [if_pos hk] at heq
    rw [← heq]
    exact ⟨rfl, Or.inr rfl⟩
  · rw [if_neg hk] at heq
    rw [← heq]
    exact ⟨rfl, Or.inl rfl⟩

theorem TblWF_append (tbl : SymTbl) (k : String) (s : Symbol)
    (hwf : TblWF tbl) (hname : s.name = k) (hhas : tblHas tbl k = false) :
    TblWF (tbl ++ [(k, s)]) := by
  constructor
  · intro e he
    rcases List.mem_append.mp he with he | he
    · exact hwf.1 e he
    · rcases List.mem_singleton.mp he with rfl
      exact hname
  · rw [List.map_append]
    apply List.Nodup.append hwf.2 (by simp)
    intro a ha hb
    simp only [List.map_cons, List.map_nil, List.mem_singleton] at hb
    exact tblHas_false_not_mem tbl k hhas (hb ▸ ha)

theorem TblWF_modify (tbl : SymTbl) (k : String) (f : Symbol → Symbol)
    (hwf : TblWF tbl) (hf : ∀ sym, (f sym).name = sym.name) :
    TblWF (tblModify tbl k f) := by
  constructor
  · intro e he
    obtain ⟨e0, he0, h1, h2⟩ := mem_tblModify tbl k f e he
    rcases h2 with h2 | h2
    · rw [h1, h2]
      exact hwf.1 e0 he0
    · rw [h1, h2, hf]
      exact hwf.1 e0 he0
  · rw [tblModify_map_fst]
    exact hwf.2

theorem TblWF_applyOp (tbl : SymTbl) (op : SymOp) (hwf : TblWF tbl) :
    TblWF (applyOp tbl op) := by
  cases op with
  | addComp c =>
    simp only [applyOp, addComponent]
    by_cases hh : tblHas tbl (jsToUpper c.identifier) = true
    · rw [if_pos hh]
      exact hwf
    · rw [if_neg hh]
      exact TblWF_append _ _ _ hwf rfl (by simpa using hh)
  | addStr n l ctx txt =>
    simp only [applyOp, addStream]
    by_cases hh : tblHas tbl (jsToUpper n) = true
    · rw [if_neg (by simp [hh])]
      refine TblWF_modify _ _ _ hwf ?_
      intro sym
      by_cases hk : (sym.kind == SymbolKind.stream) = true
      · rw [if_pos hk]
        by_cases hc : (ctx == "definition" && !(txt == "")) = true
        · rw [if_pos hc]
        · rw [if_neg hc]
      · rw [if_neg hk]
    · rw [if_pos (by simp [hh])]
      exact TblWF_append _ _ _ hwf rfl (by simpa using hh)
  | addRef n l ctx =>
    simp only [applyOp, addStreamReference]
    by_cases hh : tblHas tbl (jsToUpper n) = true
    · rw [if_neg (by simp [hh])]
      exact TblWF_modify _ _ _ hwf (fun sym => rfl)
    · rw [if_pos (by simp [hh])]
      exact TblWF_append _ _ _ hwf rfl (by simpa using hh)
  | addUn n l ty =>
    simp only [applyOp, addUnit]
    by_cases hh : tblHas tbl (jsToUpper n) = true
    · rw [if_neg (by simp [hh])]
      exact hwf
    · rw [if_pos (by simp [hh])]
      exact TblWF_append _ _ _ hwf rfl (by simpa using hh)

theorem upperKeys_applyOp (tbl : SymTbl) (op : SymOp)
    (h : ∀ e ∈ tbl, jsToUpper e.1 = e.1) :
    ∀ e ∈ applyOp tbl op, jsToUpper e.1 = e.1 := by
  have happ : ∀ (k : String) (s : Symbol), jsToUpper k = k →
      ∀ e ∈ tbl ++ [(k, s)], jsToUpper e.1 = e.1 := by
    intro k s hk e he
    rcases List.mem_append.mp he with he | he
    · exact h e he
    · rcases List.mem_singleton.mp he with rfl
      exact hk
  have hmod : ∀ (k : String) (f : Symbol → Symbol),
      ∀ e ∈ tblModify tbl k f, jsToUpper e.1 = e.1 := by
    intro k f e he
    obtain ⟨e0, he0, h1, _⟩ := mem_tblModify tbl k f e he
    rw [h1]
    exact h e0 he0
  cases op with
  | addComp c =>
    simp only [applyOp, addComponent]
    by_cases hh : tblHas tbl (jsToUpper c.identifier) = true
    · rw [if_pos hh]
      exact h
    · rw [if_neg hh]
      exact happ _ _ (jsToUpper_jsToUpper _)
  | addStr n l ctx txt =>
    simp only [applyOp, addStream]
    by_cases hh : tblHas tbl (jsToUpper n) = true
    · rw [if_neg (by simp [hh])]
      exact hmod _ _
    · rw [if_pos (by simp [hh])]
      exact happ _ _ (jsToUpper_jsToUpper _)
  | addRef n l ctx =>
    simp only [applyOp, addStreamReference]
    by_cases hh : tblHas tbl (jsToUpper n) = true
    · rw [if_neg (by simp [hh])]
      exact hmod _ _
    · rw [if_pos (by simp [hh])]
      exact happ _ _ (jsToUpper_jsToUpper _)
  | addUn n l ty =>
    simp only [applyOp, addUnit]
    by_cases hh : tblHas tbl (jsToUpper n) = true
    · rw [if_neg (by simp [hh])]
      exact h
    · rw [if_pos (by simp [hh])]
      exact happ _ _ (jsToUpper_jsToUpper _)

theorem mem_getUndefinedSymbols (tbl : SymTbl) (s : Symbol) :
    s ∈ getUndefinedSymbols tbl ↔ s ∈ getAllSymbols tbl ∧ s.kind = .stream ∧
      s.references ≠ [] ∧ ∀ r ∈ s.references, r.context ≠ "definition" := by
  simp only [getUndefinedSymbols, getAllSymbols, List.mem_filter]
  constructor
  · rintro ⟨hmem, hp⟩
    refine ⟨hmem, ?_⟩
    cases hk : s.kind with
    | stream =>
      rw [hk] at hp
      simp only [Bool.and_eq_true, Bool.not_eq_true', decide_eq_true_eq] at hp
      refine ⟨rfl, ?_, ?_⟩
      · intro hnil
        rw [hnil] at hp
        simp at hp
      · intro r hr
        have := List.any_eq_false.mp hp.1 r hr
        simpa using this
    | unit => rw [hk] at hp; cases hp
    | component => rw [hk] at hp; cases hp
    | parameter => rw [hk] at hp; cases hp
  · rintro ⟨hmem, hkind, hne, hall⟩
    refine ⟨hmem, ?_⟩
    rw [hkind]
    simp only [Bool.and_eq_true, Bool.not_eq_true', decide_eq_true_eq]
    refine ⟨List.any_eq_false.mpr ?_, List.length_pos.mpr hne⟩
    intro r hr
    simpa using hall r hr

theorem opsOf_safe (ast : ProgramNode) (txt X : String)
    (hNoComp : hasComponentNamed ast X = false)
    (hNoDef : hasStreamDefFor ast X = false)
    (hNoUnit : hasUnitNamed ast X = false) :
    ∀ op ∈ opsOf ast txt, OpSafe X op := by
  intro op hop
  rw [opsOf] at hop
  obtain ⟨l, hl, hopl⟩ := List.mem_flatten.mp hop
  obtain ⟨sec, hsec, rfl⟩ := List.mem_map.mp hl
  rcases sec with ⟨sl, el, sty, stmts⟩
  cases sty with
  | COMPONENT_DATA =>
    simp only [sectionOps] at hopl
    obtain ⟨l2, hl2, hopl2⟩ := List.mem_flatten.mp hopl
    obtain ⟨stmt, hstmt, rfl⟩ := List.mem_map.mp hl2
    cases stmt with
    | componentData a b c comps =>
      simp only [stmtOpsComp] at hopl2
      obtain ⟨cn, hcn, rfl⟩ := List.mem_map.mp hopl2
      simp only [OpSafe]
      rw [hasComponentNamed] at hNoComp
      have h1 := List.any_eq_false.mp hNoComp _ hsec
      have h1b : stmts.any (stmtHasComponentNamed X) = false := by
        revert h1
        simp
      have h2 := List.any_eq_false.mp h1b _ hstmt
      have h2b : (stmtHasComponentNamed X (.componentData a b c comps)) = false := by
        revert h2
        simp
      simp only [stmtHasComponentNamed] at h2b
      have h3 := List.any_eq_false.mp h2b _ hcn
      simpa using h3
    | unitOperation a b c d e f g => simp [stmtOpsComp] at hopl2
    | streamData a b c d e f => simp [stmtOpsComp] at hopl2
    | thermodynamicData a b c d e => simp [stmtOpsComp] at hopl2
    | printStatement a b c => simp [stmtOpsComp] at hopl2
  | STREAM_DATA =>
    simp only [sectionOps] at hopl
    obtain ⟨l2, hl2, hopl2⟩ := List.mem_flatten.mp hopl
    obtain ⟨stmt, hstmt, rfl⟩ := List.mem_map.mp hl2
    cases stmt with
    | streamData a b c nameN e f =>
      simp only [stmtOpsStream, List.mem_singleton] at hopl2
      subst hopl2
      simp only [OpSafe]
      rw [hasStreamDefFor] at hNoDef
      have h1 := List.any_eq_false.mp hNoDef _ hsec
      have h1b : stmts.any (stmtIsStreamDefFor X) = false := by
        revert h1
        simp
      have h2 := List.any_eq_false.mp h1b _ hstmt
      revert h2
      simp [stmtIsStreamDefFor]
    | unitOperation a b c d e f g => simp [stmtOpsStream] at hopl2
    | componentData a b c d => simp [stmtOpsStream] at hopl2
    | thermodynamicData a b c d e => simp [stmtOpsStream] at hopl2
    | printStatement a b c => simp [stmtOpsStream] at hopl2
  | UNIT_OPERATIONS =>
    simp only [sectionOps] at hopl
    obtain ⟨l2, hl2, hopl2⟩ := List.mem_flatten.mp hopl
    obtain ⟨stmt, hstmt, rfl⟩ := List.mem_map.mp hl2
    cases stmt with
    | unitOperation a b c uid e feeds prods =>
      simp only [stmtOpsUnit] at hopl2
      rcases List.mem_append.mp hopl2 with hx | hx
      · rcases List.mem_append.mp hx with hx | hx
        · cases uid with
          | none => simp at hx
          | some u =>
            rcases List.mem_singleton.mp hx with rfl
            simp only [OpSafe]
            rw [hasUnitNamed] at hNoUnit
            have h1 := List.any_eq_false.mp hNoUnit _ hsec
            have h1b : stmts.any (stmtHasUnitNamed X) = false := by
              revert h1
              simp
            have h2 := List.any_eq_false.mp h1b _ hstmt
            revert h2
            simp [stmtHasUnitNamed]
        · obtain ⟨fr, hfr, rfl⟩ := List.mem_map.mp hx
          simp only [OpSafe]
          decide
      · obtain ⟨pr, hpr, rfl⟩ := List.mem_map.mp hx
        simp only [OpSafe]
        decide
    | streamData a b c d e f => simp [stmtOpsUnit] at hopl2
    | componentData a b c d => simp [stmtOpsUnit] at hopl2
    | thermodynamicData a b c d e => simp [stmtOpsUnit] at hopl2
    | printStatement a b c => simp [stmtOpsUnit] at hopl2
  | THERMODYNAMIC_DATA => simp [sectionOps] at hopl
  | PRINT => simp [sectionOps] at hopl
  | OTHER => simp [sectionOps] at hopl

theorem opsOf_mem_feed (ast : ProgramNode) (txt X : String)
    (h : hasFeedRefTo ast X = true) :
    ∃ n l, SymOp.addRef n l "feed" ∈ opsOf ast txt ∧ jsToUpper n = jsToUpper X := by
  rw [hasFeedRefTo] at h
  obtain ⟨sec, hsec, hsec2⟩ := List.any_eq_true.mp h
  rw [Bool.and_eq_true] at hsec2
  obtain ⟨hty, hstmts⟩ := hsec2
  obtain ⟨stmt, hstmt, hfeed⟩ := List.any_eq_true.mp hstmts
  rcases stmt with ⟨sl2, el2, sty2, uid, prms, feeds, prods⟩ <;>
    simp only [stmtHasFeed] at hfeed <;>
    try cases hfeed
  case unitOperation =>
    obtain ⟨fr, hfr, hname⟩ := List.any_eq_true.mp hfeed
    refine ⟨fr.streamName.name, fr.startLine, ?_, by simpa using hname⟩
    rw [opsOf]
    refine List.mem_flatten.mpr ⟨sectionOps txt sec, List.mem_map.mpr ⟨sec, hsec, rfl⟩, ?_⟩
    rcases sec with ⟨sl, el, sty, stmts⟩
    have hty2 : sty = .UNIT_OPERATIONS := by simpa using hty
    subst hty2
    simp only [sectionOps]
    refine List.mem_flatten.mpr ⟨_, List.mem_map.mpr ⟨_, hstmt, rfl⟩, ?_⟩
    simp only [stmtOpsUnit]
    refine List.mem_append.mpr (Or.inl (List.mem_append.mpr (Or.inr ?_)))
    exact List.mem_map.mpr ⟨fr, hfr, rfl⟩

theorem opsOf_mem_def (ast : ProgramNode) (txt X : String)
    (h : hasStreamDefFor ast X = true) :
    ∃ n l t2, SymOp.addStr n l "definition" t2 ∈ opsOf ast txt ∧
      jsToUpper n = jsToUpper X := by
  rw [hasStreamDefFor] at h
  obtain ⟨sec, hsec, hsec2⟩ := List.any_eq_true.mp h
  rw [Bool.and_eq_true] at hsec2
  obtain ⟨hty, hstmts⟩ := hsec2
  obtain ⟨stmt, hstmt, hdef⟩ := List.any_eq_true.mp hstmts
  rcases stmt with ⟨sl2, el2, sty2, uid, prms, feeds, prods⟩ <;>
    simp only [stmtIsStreamDefFor] at hdef <;>
    try cases hdef
  case streamData sl2 el2 sty2 nameN dty prms =>
    refine ⟨nameN.name, sl2, getLineText txt sl2, ?_, by simpa using hdef⟩
    rw [opsOf]
    refine List.mem_flatten.mpr ⟨sectionOps txt sec, List.mem_map.mpr ⟨sec, hsec, rfl⟩, ?_⟩
    rcases sec with ⟨sl, el, sty, stmts⟩
    have hty2 : sty = .STREAM_DATA := by simpa using hty
    subst hty2
    simp only [sectionOps]
    refine List.mem_flatten.mpr ⟨_, List.mem_map.mpr ⟨_, hstmt, rfl⟩, ?_⟩
    simp only [stmtOpsStream, List.mem_singleton]

theorem applyOps_estab_rel (P Q : SymTbl → Prop) (ops : List SymOp) (op : SymOp)
    (hmem : op ∈ ops)
    (hPQ : ∀ tbl, P tbl → Q (applyOp tbl op))
    (hpresP : ∀ tbl o, o ∈ ops → P tbl → P (applyOp tbl o))
    (hpresQ : ∀ tbl o, o ∈ ops → Q tbl → Q (applyOp tbl o)) :
    ∀ tbl, P tbl → Q (applyOps tbl ops) := by
  induction ops with
  | nil => cases hmem
  | cons o rest ih =>
    intro tbl hP
    show Q (applyOps (applyOp tbl o) rest)
    rcases List.mem_cons.mp hmem with rfl | hmem2
    · exact applyOps_preserve Q rest
        (fun tb o2 ho2 => hpresQ tb o2 (List.mem_cons_of_mem _ ho2)) _ (hPQ tbl hP)
    · exact ih hmem2 (fun tb o2 ho2 => hpresP tb o2 (List.mem_cons_of_mem _ ho2))
        (fun tb o2 ho2 => hpresQ tb o2 (List.mem_cons_of_mem _ ho2)) _
        (hpresP tbl o (List.mem_cons_self _ _) hP)

theorem TblWF_build (ast : ProgramNode) (txt : String) : TblWF (build ast txt) := by
  rw [build_eq_applyOps]
  refine applyOps_preserve TblWF _ (fun tbl op _ h => TblWF_applyOp tbl op h) [] ?_
  exact ⟨by simp, by simp⟩

theorem c5_part2 (ast : ProgramNode) (txt X : String)
    (hFeed : hasFeedRefTo ast X = true)
    (hNoComp : hasComponentNamed ast X = false)
    (hNoDef : hasStreamDefFor ast X = false)
    (hNoUnit : hasUnitNamed ast X = false) :
    ∃ u ∈ getUndefinedSymbols (build ast txt), u.name = jsToUpper X := by
  have hsafe := opsOf_safe ast txt X hNoComp hNoDef hNoUnit
  obtain ⟨n, l, hmem, hn⟩ := opsOf_mem_feed ast txt X hFeed
  have hgood : KeyGood X (build ast txt) := by
    rw [build_eq_applyOps]
    refine applyOps_estab_rel (KeyClean X) (KeyGood X) _ _ hmem
      (fun tbl hP => KeyGood_addRef tbl X n l "feed" hn (by decide) hP)
      (fun tbl o ho hP => KeyClean_applyOp tbl o X (hsafe o ho) hP)
      (fun tbl o ho hQ => KeyGood_applyOp tbl o X (hsafe o ho) hQ)
      [] (Or.inl rfl)
  obtain ⟨s, hget, hname, hkind, hne, hrefs⟩ := hgood
  refine ⟨s, ?_, hname⟩
  refine (mem_getUndefinedSymbols _ s).mpr ⟨?_, hkind, hne, hrefs⟩
  exact List.mem_map.mpr ⟨_, tblGet_mem _ _ _ hget, rfl⟩

theorem c5_part3 (ast : ProgramNode) (txt X : String)
    (hDef : hasStreamDefFor ast X = true) :
    ∀ u ∈ getUndefinedSymbols (build ast txt), u.name ≠ jsToUpper X := by
  intro u hu hname
  have hwf := TblWF_build ast txt
  obtain ⟨n, l, t2, hmem, hn⟩ := opsOf_mem_def ast txt X hDef
  have hdefd : KeyDefended X (build ast txt) := by
    rw [build_eq_applyOps]
    exact applyOps_estab (KeyDefended X) _ _ hmem
      (fun tbl => KeyDefended_addStr tbl X n l t2 hn)
      (fun tbl o _ hQ => KeyDefended_applyOp tbl o X hQ) []
  obtain ⟨hmemAll, hkind, hne, hall⟩ := (mem_getUndefinedSymbols _ u).mp hu
  obtain ⟨e, he, heu⟩ := List.mem_map.mp hmemAll
  have hkey : e.1 = jsToUpper X := by
    rw [← hwf.1 e he, heu, hname]
  have hgetu : tblGet (build ast txt) (jsToUpper X) = some u := by
    have : (jsToUpper X, u) ∈ build ast txt := by
      have : e = (jsToUpper X, u) := by
        rcases e with ⟨e1, e2⟩
        dsimp only at hkey heu
        rw [hkey, heu]
      rwa [this] at he
    exact mem_tblGet_of_nodup _ _ _ this hwf.2
  obtain ⟨s', hgets', hdef'⟩ := hdefd
  rw [hgetu] at hgets'
  obtain ⟨r, hr, hrc⟩ := hdef' (by rw [← Option.some.inj hgets']; exact hkind)
  exact hall r (by rw [Option.some.inj hgets']; exact hr) hrc

/-- C5 (amended): membership in `getUndefinedSymbols` is exactly
"stream kind, at least one reference, none tagged definition"; and for a
document whose unit operations reference stream `X` as a feed, provided
`X`'s canonical name does not collide with a component or unit uid, the
built table's undefined list contains a symbol named `X` exactly when no
stream-property statement for `X` exists. -/
theorem getUndefinedSymbols_spec (ast : ProgramNode) (txt X : String)
    (hFeed : hasFeedRefTo ast X = true)
    (hNoComp : hasComponentNamed ast X = false)
    (hNoUnit : hasUnitNamed ast X = false) :
    (∀ (tbl : SymTbl) (s : Symbol),
      s ∈ getUndefinedSymbols tbl ↔ s ∈ getAllSymbols tbl ∧ s.kind = .stream ∧
        s.references ≠ [] ∧ ∀ r ∈ s.references, r.context ≠ "definition") ∧
    (hasStreamDefFor ast X = false →
      ∃ u ∈ getUndefinedSymbols (build ast txt), u.name = jsToUpper X) ∧
    (hasStreamDefFor ast X = true →
      ∀ u ∈ getUndefinedSymbols (build ast txt), u.name ≠ jsToUpper X) :=
  ⟨mem_getUndefinedSymbols,
   fun hNoDef => c5_part2 ast txt X hFeed hNoComp hNoDef hNoUnit,
   fun hDef => c5_part3 ast txt X hDef⟩

/-- C6 (amended): a symbol is created on the first sight of its
canonical name, never deleted, and later sights merge into the same
entry with the first sight fixing name, kind and position; later stream
definitions and references append to the reference list, while a later
unit definition with an existing uid leaves the table entirely
unchanged (it is ignored, not appended). -/
theorem symbol_merge_policy (tbl : SymTbl) (n : String) (l : Nat)
    (c txt ty : String) :
    (tblGet tbl (jsToUpper n) = none →
      (∃ md, tblGet (addStream tbl n l c txt) (jsToUpper n) =
        some { name := jsToUpper n, kind := .stream, definedAtLine := l,
               references := [{ line := l, context := c }], metadata := md }) ∧
      tblGet (addStreamReference tbl n l c) (jsToUpper n) =
        some { name := jsToUpper n, kind := .stream, definedAtLine := l,
               references := [{ line := l, context := c }], metadata := none } ∧
      (∃ md, tblGet (addUnit tbl n l ty) (jsToUpper n) =
        some { name := jsToUpper n, kind := .unit, definedAtLine := l,
               references := [{ line := l, context := "definition" }],
               metadata := md })) ∧
    (∀ s, tblGet tbl (jsToUpper n) = some s →
      (∀ op, ∃ s2, tblGet (applyOp tbl op) (jsToUpper n) = some s2 ∧
        s2.name = s.name ∧ s2.kind = s.kind ∧ s2.definedAtLine = s.definedAtLine) ∧
      (s.kind = .stream → ∃ md, tblGet (addStream tbl n l c txt) (jsToUpper n) =
        some { name := s.name, kind := s.kind, definedAtLine := s.definedAtLine,
               references := s.references ++ [{ line := l, context := c }],
               metadata := md }) ∧
      tblGet (addStreamReference tbl n l c) (jsToUpper n) =
        some { s with references := s.references ++ [{ line := l, context := c }] } ∧
      addUnit tbl n l ty = tbl) := by
  constructor
  · intro hnone
    refine ⟨⟨_, addStream_new_get tbl n l c txt hnone⟩,
      addRef_new_get tbl n l c hnone,
      ⟨_, addUnit_new_get tbl n l ty hnone⟩⟩
  · intro s hs
    refine ⟨?_, ?_, addRef_present_get tbl n l c s hs, ?_⟩
    · intro op
      obtain ⟨s2, hget2, hname, hkind, hline, _⟩ := applyOp_stable tbl op _ s hs
      exact ⟨s2, hget2, hname, hkind, hline⟩
    · intro hkind
      exact addStream_stream_get tbl n l c txt s hs hkind
    · exact addUnit_present tbl n l ty (by rw [tblHas_eq_isSome, hs]; rfl)

/-- C7: `getSymbol` is case-insensitive — looking up `N`, its
upper-cased form and its lower-cased form give the same result on any
built table — and every key of a built table is uppercase-canonical. -/
theorem getSymbol_case_insensitive (ast : ProgramNode) (txt N : String) :
    getSymbol (build ast txt) (jsToUpper N) = getSymbol (build ast txt) N ∧
    getSymbol (build ast txt) (jsToLower N) = getSymbol (build ast txt) N ∧
    ∀ e ∈ build ast txt, jsToUpper e.1 = e.1 := by
  refine ⟨?_, ?_, ?_⟩
  · simp only [getSymbol, jsToUpper_jsToUpper]
  · simp only [getSymbol, jsToUpper_jsToLower]
  · rw [build_eq_applyOps]
    exact applyOps_preserve (fun tb => ∀ e ∈ tb, jsToUpper e.1 = e.1) _
      (fun tb op _ h => upperKeys_applyOp tb op h) [] (by simp)

/-- Counterexample to C5 as stated: in `c5cexAst`, stream `X` is
referenced as a feed and has no stream-property statement anywhere, yet
`getUndefinedSymbols` is empty — the feed reference was attached to the
component symbol that already owned the canonical key `X`. -/
theorem c5_counterexample :
    hasFeedRefTo c5cexAst "X" = true ∧ hasStreamDefFor c5cexAst "X" = false ∧
    (getUndefinedSymbols (build c5cexAst "")).length = 0 := by decide

/-- Counterexample to C6 as stated: in `c6cexAst` the uid `U` is
defined by two unit-operation statements, yet the built symbol keeps a
single reference — the second unit definition is ignored rather than
appended to the reference list. -/
theorem c6_counterexample :
    (getSymbol (build c6cexAst "") "U").map
        (fun s => (s.references.length, s.definedAtLine)) = some (1, 1) ∧
    ((c6cexAst.sections.map
        (fun sec => sec.statements.filter (stmtHasUnitNamed "U"))).flatten).length = 2 := by
  refine ⟨?_, by decide⟩
  decide

/-- Witness for C5 at the concrete document `c10ast`. -/
theorem getUndefinedSymbols_spec_witness :
    (∀ (tbl : SymTbl) (s : Symbol),
      s ∈ getUndefinedSymbols tbl ↔ s ∈ getAllSymbols tbl ∧ s.kind = .stream ∧
        s.references ≠ [] ∧ ∀ r ∈ s.references, r.context ≠ "definition") ∧
    (hasStreamDefFor c10ast "X" = false →
      ∃ u ∈ getUndefinedSymbols (build c10ast ""), u.name = jsToUpper "X") ∧
    (hasStreamDefFor c10ast "X" = true →
      ∀ u ∈ getUndefinedSymbols (build c10ast ""), u.name ≠ jsToUpper "X") :=
  getUndefinedSymbols_spec c10ast "" "X" (by decide) (by decide) (by decide)

/-- Witness for C6 at a concrete one-entry table. -/
theorem symbol_merge_policy_witness :
    addUnit c6wTbl "x" 7 "PUMP" = c6wTbl :=
  ((symbol_merge_policy c6wTbl "x" 7 "feed" "" "PUMP").2 c6wSym (by decide)).2.2.2

end
